import Mathlib

/-!
# CHIP-8 interpreter (src/chip8.c): a shallow embedding and its checked properties

The machine state of `Chip8` is embedded as a record whose arrays are total
functions on `Nat`; every array access of the C code is bounds-checked in the
embedding and an out-of-range access is reported as a `Fault` (in C it is
undefined behaviour).  Machine integers are `Nat` with the truncations of the
C types written out (`% 256` for `uint8_t`, `% 65536` for `uint16_t`).
The value returned by `rand()` is an argument of the step function.  The
`printf` diagnostics of the unknown-opcode branches change no state and are not
part of the embedding.
-/

namespace Chip8Emu

/-! ## Constants (the `#define`s of chip8.c) -/

abbrev MEMORY_SIZE : Nat := 4096

abbrev STACK_SIZE : Nat := 16

abbrev REGISTERS_COUNT : Nat := 16

abbrev SCREEN_WIDTH : Nat := 64

abbrev SCREEN_HEIGHT : Nat := 32

/-! ## State -/

/-- The `Chip8` struct.  `memory`, `V`, `stack`, `gfx`, `keys` are the C arrays
(only indices below the array size are meaningful). -/
structure Chip8 where
  memory : Nat → Nat
  V : Nat → Nat
  I : Nat
  PC : Nat
  stack : Nat → Nat
  SP : Nat
  delay_timer : Nat
  sound_timer : Nat
  gfx : Nat → Nat
  keys : Nat → Nat
  draw_flag : Nat

/-- An array access outside the array (undefined behaviour in the C program). -/
inductive Fault where
  | memory_oob (addr : Nat)
  | stack_oob (idx : Nat)
  | keys_oob (idx : Nat)
  deriving DecidableEq, Repr

/-- Array store `a[i] = v`. -/
def upd (a : Nat → Nat) (i v : Nat) : Nat → Nat :=
  fun j => if j = i then v else a j

/-- Truncation of a C `int` result to `uint8_t`. -/
def wrap8 (z : Int) : Nat := (z % 256).toNat

/-- The table `fontset[80]`. -/
def fontset : List Nat :=
  [0xF0, 0x90, 0x90, 0x90, 0xF0,
   0x20, 0x60, 0x20, 0x20, 0x70,
   0xF0, 0x10, 0xF0, 0x80, 0xF0,
   0xF0, 0x10, 0xF0, 0x10, 0xF0,
   0x90, 0x90, 0xF0, 0x10, 0x10,
   0xF0, 0x80, 0xF0, 0x10, 0xF0,
   0xF0, 0x80, 0xF0, 0x90, 0xF0,
   0xF0, 0x10, 0x20, 0x40, 0x40,
   0xF0, 0x90, 0xF0, 0x90, 0xF0,
   0xF0, 0x90, 0xF0, 0x10, 0xF0,
   0xF0, 0x90, 0xF0, 0x90, 0x90,
   0xE0, 0x90, 0xE0, 0x90, 0xE0,
   0xF0, 0x80, 0x80, 0x80, 0xF0,
   0xE0, 0x90, 0x90, 0x90, 0xE0,
   0xF0, 0x80, 0xF0, 0x80, 0xF0,
   0xF0, 0x80, 0xF0, 0x80, 0x80]

/-- `init_chip8`: everything zero, the font table at the start of memory,
`PC = 0x200`. -/
def init_chip8 : Chip8 :=
  { memory := fun a => fontset.getD a 0
    V := fun _ => 0
    I := 0
    PC := 0x200
    stack := fun _ => 0
    SP := 0
    delay_timer := 0
    sound_timer := 0
    gfx := fun _ => 0
    keys := fun _ => 0
    draw_flag := 0 }

/-- The copy of `load_rom`: the bytes of the file go to `memory + 0x200`
(the file is refused when it is longer than `MEMORY_SIZE - 0x200`). -/
def load_rom (s : Chip8) (rom : List Nat) : Option Chip8 :=
  if rom.length > MEMORY_SIZE - 0x200 then none
  else some { s with memory := fun a =>
                if 0x200 ≤ a ∧ a < 0x200 + rom.length then rom.getD (a - 0x200) 0 % 256
                else s.memory a }

/-- The timer block of the main loop (run when a 60 Hz period has elapsed). -/
def tick_timers (s : Chip8) : Chip8 :=
  let s1 := if s.delay_timer > 0 then { s with delay_timer := s.delay_timer - 1 } else s
  if s1.sound_timer > 0 then { s1 with sound_timer := s1.sound_timer - 1 } else s1

/-! ## emulate_cycle -/

/-- `chip8->PC += 2` on a `uint16_t`. -/
def pc_add2 (s : Chip8) : Chip8 := { s with PC := (s.PC + 2) % 65536 }

/-- The opcode fetch `(memory[PC] << 8) | memory[PC + 1]`, stored in a `uint16_t`. -/
def fetch (s : Chip8) : Except Fault Nat :=
  if MEMORY_SIZE ≤ s.PC then .error (.memory_oob s.PC)
  else if MEMORY_SIZE ≤ s.PC + 1 then .error (.memory_oob (s.PC + 1))
  else .ok (((s.memory s.PC <<< 8) ||| s.memory (s.PC + 1)) % 65536)

/-- `case 0x0000`. -/
def exec_0 (opcode : Nat) (s : Chip8) : Except Fault Chip8 :=
  if opcode &&& 0x00FF = 0x00E0 then
    .ok (pc_add2 { s with gfx := fun i => if i < SCREEN_WIDTH * SCREEN_HEIGHT then 0 else s.gfx i
                          draw_flag := 1 })
  else if opcode &&& 0x00FF = 0x00EE then
    if s.SP > 0 then
      if s.SP - 1 < STACK_SIZE then
        .ok (pc_add2 { s with SP := s.SP - 1, PC := s.stack (s.SP - 1) })
      else .error (.stack_oob (s.SP - 1))
    else .ok (pc_add2 s)
  else .ok (pc_add2 s)

/-- `case 0x8000`. -/
def exec_8 (opcode : Nat) (s : Chip8) : Except Fault Chip8 :=
  let X := (opcode &&& 0x0F00) >>> 8
  let Y := (opcode &&& 0x00F0) >>> 4
  let n := opcode &&& 0x000F
  let V1 : Nat → Nat :=
    if n = 0x0 then upd s.V X (s.V Y)
    else if n = 0x1 then upd s.V X (s.V X ||| s.V Y)
    else if n = 0x2 then upd s.V X (s.V X &&& s.V Y)
    else if n = 0x3 then upd s.V X (s.V X ^^^ s.V Y)
    else if n = 0x4 then
      let sum := (s.V X + s.V Y) % 65536
      let Vf := upd s.V 0xF (if sum > 255 then 1 else 0)
      upd Vf X (sum &&& 0xFF)
    else if n = 0x5 then
      let Vf := upd s.V 0xF (if s.V X ≥ s.V Y then 1 else 0)
      upd Vf X (wrap8 ((Vf X : Int) - (Vf Y : Int)))
    else if n = 0x6 then
      let Vf := upd s.V 0xF (s.V X &&& 0x01)
      upd Vf X (Vf X >>> 1)
    else if n = 0x7 then
      let Vf := upd s.V 0xF (if s.V Y ≥ s.V X then 1 else 0)
      upd Vf X (wrap8 ((Vf Y : Int) - (Vf X : Int)))
    else if n = 0xE then
      let Vf := upd s.V 0xF ((s.V X >>> 7) &&& 0x01)
      upd Vf X ((Vf X <<< 1) % 256)
    else s.V
  .ok (pc_add2 { s with V := V1 })

/-- The body of the inner loop of `case 0xD000` for a set sprite bit: the
collision test and the toggle of `gfx[idx]`.  The pair is `(V, gfx)`. -/
def draw_pixel (X Y yline xline : Nat) (st : (Nat → Nat) × (Nat → Nat)) :
    (Nat → Nat) × (Nat → Nat) :=
  let screen_x := (st.1 X + xline) % SCREEN_WIDTH
  let screen_y := (st.1 Y + yline) % SCREEN_HEIGHT
  let idx := screen_y * SCREEN_WIDTH + screen_x
  let V1 := if st.2 idx = 1 then upd st.1 0xF 1 else st.1
  (V1, upd st.2 idx (st.2 idx ^^^ 1))

/-- The inner loop `for (xline = ...; xline < 8; xline++)`, with `n` iterations left. -/
def draw_row (X Y yline px : Nat) :
    Nat → Nat → (Nat → Nat) × (Nat → Nat) → (Nat → Nat) × (Nat → Nat)
  | _, 0, st => st
  | xline, n + 1, st =>
    draw_row X Y yline px (xline + 1) n
      (if px &&& (0x80 >>> xline) ≠ 0 then draw_pixel X Y yline xline st else st)

/-- The outer loop `for (yline = ...; yline < height; yline++)`, with `n` iterations left. -/
def draw_rows (memory : Nat → Nat) (I X Y : Nat) :
    Nat → Nat → (Nat → Nat) × (Nat → Nat) → Except Fault ((Nat → Nat) × (Nat → Nat))
  | _, 0, st => .ok st
  | yline, n + 1, st =>
    if I + yline < MEMORY_SIZE then
      draw_rows memory I X Y (yline + 1) n (draw_row X Y yline (memory (I + yline)) 0 8 st)
    else .error (.memory_oob (I + yline))

/-- `case 0xD000`. -/
def exec_D (opcode : Nat) (s : Chip8) : Except Fault Chip8 :=
  let X := (opcode &&& 0x0F00) >>> 8
  let Y := (opcode &&& 0x00F0) >>> 4
  let height := opcode &&& 0x000F
  match draw_rows s.memory s.I X Y 0 height (upd s.V 0xF 0, s.gfx) with
  | .error e => .error e
  | .ok st => .ok (pc_add2 { s with V := st.1, gfx := st.2, draw_flag := 1 })

/-- `case 0xE000`. -/
def exec_E (opcode : Nat) (s : Chip8) : Except Fault Chip8 :=
  let X := (opcode &&& 0x0F00) >>> 8
  if opcode &&& 0x00FF = 0x009E then
    if s.V X < 16 then
      .ok (pc_add2 (if s.keys (s.V X) ≠ 0 then pc_add2 s else s))
    else .error (.keys_oob (s.V X))
  else if opcode &&& 0x00FF = 0x00A1 then
    if s.V X < 16 then
      .ok (pc_add2 (if s.keys (s.V X) = 0 then pc_add2 s else s))
    else .error (.keys_oob (s.V X))
  else .ok s

/-- The key scan of `FX0A`: `for (i = ...; i < 16; i++) if (keys[i]) ... break`,
with `n` iterations left; the result is the index at which the loop breaks. -/
def key_scan (keys : Nat → Nat) : Nat → Nat → Option Nat
  | _, 0 => none
  | i, n + 1 => if keys i ≠ 0 then some i else key_scan keys (i + 1) n

/-- The loop of `FX55`: `memory[I + i] = V[i]`, with `n` iterations left. -/
def store_regs (V : Nat → Nat) (I : Nat) :
    Nat → Nat → (Nat → Nat) → Except Fault (Nat → Nat)
  | _, 0, memory => .ok memory
  | i, n + 1, memory =>
    if I + i < MEMORY_SIZE then store_regs V I (i + 1) n (upd memory (I + i) (V i))
    else .error (.memory_oob (I + i))

/-- The loop of `FX65`: `V[i] = memory[I + i]`, with `n` iterations left. -/
def load_regs (memory : Nat → Nat) (I : Nat) :
    Nat → Nat → (Nat → Nat) → Except Fault (Nat → Nat)
  | _, 0, V => .ok V
  | i, n + 1, V =>
    if I + i < MEMORY_SIZE then load_regs memory I (i + 1) n (upd V i (memory (I + i)))
    else .error (.memory_oob (I + i))

/-- `case 0xF000`. -/
def exec_F (opcode : Nat) (s : Chip8) : Except Fault Chip8 :=
  let X := (opcode &&& 0x0F00) >>> 8
  let nn := opcode &&& 0x00FF
  if nn = 0x0007 then .ok (pc_add2 { s with V := upd s.V X s.delay_timer })
  else if nn = 0x000A then
    match key_scan s.keys 0 16 with
    | some i => .ok (pc_add2 { s with V := upd s.V X i })
    | none => .ok s
  else if nn = 0x0015 then .ok (pc_add2 { s with delay_timer := s.V X })
  else if nn = 0x0018 then .ok (pc_add2 { s with sound_timer := s.V X })
  else if nn = 0x001E then .ok (pc_add2 { s with I := (s.I + s.V X) % 65536 })
  else if nn = 0x0029 then .ok (pc_add2 { s with I := (s.V X * 5) % 65536 })
  else if nn = 0x0033 then
    if MEMORY_SIZE ≤ s.I then .error (.memory_oob s.I)
    else if MEMORY_SIZE ≤ s.I + 1 then .error (.memory_oob (s.I + 1))
    else if MEMORY_SIZE ≤ s.I + 2 then .error (.memory_oob (s.I + 2))
    else
      let m1 := upd s.memory s.I (s.V X / 100)
      let m2 := upd m1 (s.I + 1) ((s.V X / 10) % 10)
      let m3 := upd m2 (s.I + 2) (s.V X % 10)
      .ok (pc_add2 { s with memory := m3 })
  else if nn = 0x0055 then
    match store_regs s.V s.I 0 (X + 1) s.memory with
    | .error e => .error e
    | .ok m => .ok (pc_add2 { s with memory := m })
  else if nn = 0x0065 then
    match load_regs s.memory s.I 0 (X + 1) s.V with
    | .error e => .error e
    | .ok v => .ok (pc_add2 { s with V := v })
  else .ok (pc_add2 s)

/-- The instruction dispatch `switch (opcode & 0xF000)` of `emulate_cycle`;
`rnd` is the value returned by `rand()`. -/
def execute (rnd : Nat) (opcode : Nat) (s : Chip8) : Except Fault Chip8 :=
  let hi := opcode &&& 0xF000
  let X := (opcode &&& 0x0F00) >>> 8
  let Y := (opcode &&& 0x00F0) >>> 4
  let NN := opcode &&& 0x00FF
  if hi = 0x0000 then exec_0 opcode s
  else if hi = 0x1000 then .ok { s with PC := opcode &&& 0x0FFF }
  else if hi = 0x2000 then
    if s.SP < STACK_SIZE then
      .ok { s with stack := upd s.stack s.SP s.PC
                   SP := (s.SP + 1) % 256
                   PC := opcode &&& 0x0FFF }
    else .error (.stack_oob s.SP)
  else if hi = 0x3000 then .ok (pc_add2 (if s.V X = NN then pc_add2 s else s))
  else if hi = 0x4000 then .ok (pc_add2 (if s.V X ≠ NN then pc_add2 s else s))
  else if hi = 0x5000 then .ok (pc_add2 (if s.V X = s.V Y then pc_add2 s else s))
  else if hi = 0x6000 then .ok (pc_add2 { s with V := upd s.V X NN })
  else if hi = 0x7000 then .ok (pc_add2 { s with V := upd s.V X ((s.V X + NN) % 256) })
  else if hi = 0x8000 then exec_8 opcode s
  else if hi = 0x9000 then .ok (pc_add2 (if s.V X ≠ s.V Y then pc_add2 s else s))
  else if hi = 0xA000 then .ok (pc_add2 { s with I := opcode &&& 0x0FFF })
  else if hi = 0xB000 then .ok { s with PC := (s.V 0 + (opcode &&& 0x0FFF)) % 65536 }
  else if hi = 0xC000 then .ok (pc_add2 { s with V := upd s.V X ((rnd % 256) &&& NN) })
  else if hi = 0xD000 then exec_D opcode s
  else if hi = 0xE000 then exec_E opcode s
  else if hi = 0xF000 then exec_F opcode s
  else .ok (pc_add2 s)

/-- One call of `emulate_cycle`. -/
def emulate_cycle (rnd : Nat) (s : Chip8) : Except Fault Chip8 :=
  match fetch s with
  | .error e => .error e
  | .ok opcode => execute rnd opcode s

/-- Successive calls of `emulate_cycle`, one per element of the list of
`rand()` values. -/
def run_cycles : List Nat → Chip8 → Except Fault Chip8
  | [], s => .ok s
  | rnd :: rest, s =>
    match emulate_cycle rnd s with
    | .error e => .error e
    | .ok s1 => run_cycles rest s1

/-! ## Definitions used to state the properties -/

/-- The initial state of `main` after `init_chip8` and `load_rom` of the given bytes. -/
def boot (rom : List Nat) : Chip8 := (load_rom init_chip8 rom).getD init_chip8

instance : DecidableEq (Except Fault Nat) := fun a b =>
  match a, b with
  | .ok x, .ok y =>
    if h : x = y then isTrue (by rw [h]) else isFalse (fun h2 => h (by injection h2))
  | .error x, .error y =>
    if h : x = y then isTrue (by rw [h]) else isFalse (fun h2 => h (by injection h2))
  | .ok _, .error _ => isFalse (fun h2 => by cases h2)
  | .error _, .ok _ => isFalse (fun h2 => by cases h2)

/-- The PC of a step result. -/
def pc_of (r : Except Fault Chip8) : Option Nat :=
  match r with
  | .ok s => some s.PC
  | .error _ => none

/-- The register `V[i]` of a step result. -/
def reg_of (r : Except Fault Chip8) (i : Nat) : Option Nat :=
  match r with
  | .ok s => some (s.V i)
  | .error _ => none

/-- A state with the two given opcode bytes at 0x200 and the registers `V`. -/
def boot_with_regs (b0 b1 : Nat) (V : Nat → Nat) : Chip8 :=
  { boot [b0, b1] with V := V }

/-- A state with the given program at 0x200 and the display grid `gfx`. -/
def boot_with_gfx (rom : List Nat) (gfx : Nat → Nat) : Chip8 :=
  { boot rom with gfx := gfx }

/-- The opcode fetched by the cycle that follows a step result. -/
def next_fetch (r : Except Fault Chip8) : Except Fault Nat :=
  match r with
  | .ok s => fetch s
  | .error e => .error e

/-- The opcode patterns of the instruction table: 00E0, 00EE, 1NNN, 2NNN, 3XNN,
4XNN, 5XY0, 6XNN, 7XNN, 8XY0-8XY7, 8XYE, 9XY0, ANNN, BNNN, CXNN, DXYN, EX9E,
EXA1, FX07, FX0A, FX15, FX18, FX1E, FX29, FX33, FX55, FX65. -/
def in_instruction_table (op : Nat) : Prop :=
  op = 0x00E0 ∨ op = 0x00EE ∨
  op / 4096 = 0x1 ∨ op / 4096 = 0x2 ∨ op / 4096 = 0x3 ∨ op / 4096 = 0x4 ∨
  (op / 4096 = 0x5 ∧ op % 16 = 0) ∨
  op / 4096 = 0x6 ∨ op / 4096 = 0x7 ∨
  (op / 4096 = 0x8 ∧ (op % 16 ≤ 7 ∨ op % 16 = 0xE)) ∨
  (op / 4096 = 0x9 ∧ op % 16 = 0) ∨
  op / 4096 = 0xA ∨ op / 4096 = 0xB ∨ op / 4096 = 0xC ∨ op / 4096 = 0xD ∨
  (op / 4096 = 0xE ∧ (op % 256 = 0x9E ∨ op % 256 = 0xA1)) ∨
  (op / 4096 = 0xF ∧ (op % 256 = 0x07 ∨ op % 256 = 0x0A ∨ op % 256 = 0x15 ∨
    op % 256 = 0x18 ∨ op % 256 = 0x1E ∨ op % 256 = 0x29 ∨ op % 256 = 0x33 ∨
    op % 256 = 0x55 ∨ op % 256 = 0x65))

instance : DecidablePred in_instruction_table := fun op => by
  unfold in_instruction_table; infer_instance

/-- The recognized non-branch, non-skip instructions: 00E0, 6XNN, 7XNN,
8XY0-8XY7, 8XYE, ANNN, CXNN, DXYN, FX07, FX15, FX18, FX1E, FX29, FX33, FX55,
FX65. -/
def non_branch_non_skip (op : Nat) : Prop :=
  op = 0x00E0 ∨ op / 4096 = 0x6 ∨ op / 4096 = 0x7 ∨
  (op / 4096 = 0x8 ∧ (op % 16 ≤ 7 ∨ op % 16 = 0xE)) ∨
  op / 4096 = 0xA ∨ op / 4096 = 0xC ∨ op / 4096 = 0xD ∨
  (op / 4096 = 0xF ∧ (op % 256 = 0x07 ∨ op % 256 = 0x15 ∨ op % 256 = 0x18 ∨
    op % 256 = 0x1E ∨ op % 256 = 0x29 ∨ op % 256 = 0x33 ∨ op % 256 = 0x55 ∨
    op % 256 = 0x65))

instance : DecidablePred non_branch_non_skip := fun op => by
  unfold non_branch_non_skip; infer_instance

/-- The memory addresses the instruction uses are inside [0,4096): the sprite
rows I .. I+N-1 of DXYN, the three bytes I .. I+2 of FX33 and the bytes
I .. I+X of FX55 and FX65. -/
def addresses_in_range (s : Chip8) (op : Nat) : Prop :=
  (op / 4096 = 0xD → s.I + op % 16 ≤ 4096) ∧
  (op / 4096 = 0xF → op % 256 = 0x33 → s.I + 2 < 4096) ∧
  (op / 4096 = 0xF → op % 256 = 0x55 ∨ op % 256 = 0x65 → s.I + op / 256 % 16 < 4096)

instance (s : Chip8) : DecidablePred (addresses_in_range s) := fun op => by
  unfold addresses_in_range; infer_instance

/-- Bit `c` of the sprite byte `px`, counted from the most significant bit, is
set: the test `(px & (0x80 >> xline)) != 0`. -/
def sprite_bit (px c : Nat) : Prop := px &&& (0x80 >>> c) ≠ 0

instance (px c : Nat) : Decidable (sprite_bit px c) := by
  unfold sprite_bit; infer_instance

/-- Index in `gfx` of the pixel ((vx + c) mod 64, (vy + r) mod 32). -/
def pixel_index (vx vy r c : Nat) : Nat :=
  ((vy + r) % SCREEN_HEIGHT) * SCREEN_WIDTH + (vx + c) % SCREEN_WIDTH

/-- Collision test and toggle at one index of `gfx`, on the pair `(V, gfx)`. -/
def hit (st : (Nat → Nat) × (Nat → Nat)) (idx : Nat) : (Nat → Nat) × (Nat → Nat) :=
  (if st.2 idx = 1 then upd st.1 0xF 1 else st.1, upd st.2 idx (st.2 idx ^^^ 1))

/-- The hits of a list of indices, in order. -/
def apply_hits (L : List Nat) (st : (Nat → Nat) × (Nat → Nat)) :
    (Nat → Nat) × (Nat → Nat) :=
  L.foldl hit st

/-- The indices hit by the columns `c .. c+n-1` of sprite row `r`, in order. -/
def row_hits (vx vy r px : Nat) : Nat → Nat → List Nat
  | _, 0 => []
  | c, n + 1 =>
    if sprite_bit px c then pixel_index vx vy r c :: row_hits vx vy r px (c + 1) n
    else row_hits vx vy r px (c + 1) n

/-- The indices hit by the sprite rows `r .. r+n-1`, in order. -/
def sprite_hits (memory : Nat → Nat) (I vx vy : Nat) : Nat → Nat → List Nat
  | _, 0 => []
  | r, n + 1 =>
    row_hits vx vy r (memory (I + r)) 0 8 ++ sprite_hits memory I vx vy (r + 1) n

/-- The stack pointer of a step result. -/
def sp_of (r : Except Fault Chip8) : Option Nat :=
  match r with
  | .ok s => some s.SP
  | .error _ => none

/-- The fault of a step result, when it is one. -/
def fault_of (r : Except Fault Chip8) : Option Fault :=
  match r with
  | .ok _ => none
  | .error e => some e

/-- Every cell of the display grid `gfx[SCREEN_WIDTH * SCREEN_HEIGHT]` holds 0 or 1. -/
def gfx_binary (s : Chip8) : Prop :=
  ∀ p, p < SCREEN_WIDTH * SCREEN_HEIGHT → s.gfx p = 0 ∨ s.gfx p = 1

/-- What a step leaves alone, from the state `s` before to the state `t` after:
both timers, and either the display grid or, when the grid is written, the
draw flag is set and a grid of cells 0 or 1 stays one. -/
def frame_ok (s t : Chip8) : Prop :=
  t.delay_timer = s.delay_timer ∧ t.sound_timer = s.sound_timer ∧
  (t.gfx = s.gfx ∨ (t.draw_flag = 1 ∧ (gfx_binary s → gfx_binary t)))

/-- The stack and key indices the instruction uses are inside their arrays:
`stack[SP]` of 2NNN, `stack[SP - 1]` of 00EE when SP > 0, and `keys[V[X]]` of
EX9E and EXA1. -/
def stack_keys_in_range (s : Chip8) (op : Nat) : Prop :=
  (op / 4096 = 0x2 → s.SP < 16) ∧
  (op / 4096 = 0x0 → op % 256 = 0xEE → s.SP ≤ 16) ∧
  (op / 4096 = 0xE → op % 256 = 0x9E ∨ op % 256 = 0xA1 → s.V (op / 256 % 16) < 16)

instance (s : Chip8) : DecidablePred (stack_keys_in_range s) := fun op => by
  unfold stack_keys_in_range; infer_instance

/-- The state of a run that returned (the state of `init_chip8` otherwise). -/
def state_of (r : Except Fault Chip8) : Chip8 :=
  match r with
  | .ok s => s
  | .error _ => init_chip8

/-! ## Bit-field lemmas for the decoder -/

theorem shr_land (a b i : Nat) : (a &&& b) >>> i = (a >>> i) &&& (b >>> i) := by
  apply Nat.eq_of_testBit_eq
  intro j
  simp only [Nat.testBit_shiftRight, Nat.testBit_and]

theorem land_F000 (op : Nat) : op &&& 0xF000 = (op / 4096 % 16) * 4096 := by
  have h1 : (op &&& 0xF000) >>> 12 = op / 4096 % 16 := by
    rw [shr_land]
    have : (0xF000 : Nat) >>> 12 = 2 ^ 4 - 1 := by decide
    rw [this, Nat.and_pow_two_sub_one_eq_mod, Nat.shiftRight_eq_div_pow]
  have h2 : (op &&& 0xF000) % 4096 = 0 := by
    have : (4096 : Nat) = 2 ^ 12 := by norm_num
    rw [this, ← Nat.and_pow_two_sub_one_eq_mod, Nat.and_assoc]
    have : (0xF000 : Nat) &&& (2 ^ 12 - 1) = 0 := by decide
    rw [this, Nat.and_zero]
  rw [Nat.shiftRight_eq_div_pow] at h1
  omega

theorem land_0F00_shr (op : Nat) : (op &&& 0x0F00) >>> 8 = op / 256 % 16 := by
  rw [shr_land]
  have : (0x0F00 : Nat) >>> 8 = 2 ^ 4 - 1 := by decide
  rw [this, Nat.and_pow_two_sub_one_eq_mod, Nat.shiftRight_eq_div_pow]

theorem land_00F0_shr (op : Nat) : (op &&& 0x00F0) >>> 4 = op / 16 % 16 := by
  rw [shr_land]
  have : (0x00F0 : Nat) >>> 4 = 2 ^ 4 - 1 := by decide
  rw [this, Nat.and_pow_two_sub_one_eq_mod, Nat.shiftRight_eq_div_pow]

theorem land_00FF (op : Nat) : op &&& 0x00FF = op % 256 := by
  have : (0x00FF : Nat) = 2 ^ 8 - 1 := by decide
  rw [this, Nat.and_pow_two_sub_one_eq_mod]

theorem land_000F (op : Nat) : op &&& 0x000F = op % 16 := by
  have : (0x000F : Nat) = 2 ^ 4 - 1 := by decide
  rw [this, Nat.and_pow_two_sub_one_eq_mod]

theorem land_0FFF (op : Nat) : op &&& 0x0FFF = op % 4096 := by
  have : (0x0FFF : Nat) = 2 ^ 12 - 1 := by decide
  rw [this, Nat.and_pow_two_sub_one_eq_mod]

/-! ## Basic facts -/

@[simp] theorem upd_same (a : Nat → Nat) (i v : Nat) : upd a i v i = v := by
  simp [upd]

theorem upd_ne (a : Nat → Nat) (i v j : Nat) (h : j ≠ i) : upd a i v j = a j := by
  simp [upd, h]

theorem upd_apply (a : Nat → Nat) (i v j : Nat) :
    upd a i v j = if j = i then v else a j := rfl

theorem fetch_ok_bounds {s : Chip8} {op : Nat} (h : fetch s = .ok op) :
    s.PC ≤ 4094 ∧ op < 65536 := by
  unfold fetch at h
  split at h
  · cases h
  · split at h
    · cases h
    · rename_i h1 h2
      injection h with h
      subst h
      constructor
      · simp only [MEMORY_SIZE] at h1 h2; omega
      · exact Nat.mod_lt _ (by norm_num)

theorem fetch_eq_of_le {s : Chip8} (h : s.PC ≤ 4094) :
    fetch s = .ok (((s.memory s.PC <<< 8) ||| s.memory (s.PC + 1)) % 65536) := by
  unfold fetch
  rw [if_neg (by simp only [MEMORY_SIZE]; omega), if_neg (by simp only [MEMORY_SIZE]; omega)]

theorem emulate_cycle_of_fetch {s : Chip8} {op : Nat} (rnd : Nat) (h : fetch s = .ok op) :
    emulate_cycle rnd s = execute rnd op s := by
  simp [emulate_cycle, h]

theorem pc_add2_eq {s : Chip8} (h : s.PC ≤ 65533) : pc_add2 s = { s with PC := s.PC + 2 } := by
  simp [pc_add2, Nat.mod_eq_of_lt (show s.PC + 2 < 65536 by omega)]

/-! ## C1: unrecognized opcodes -/

/-- Every opcode whose low byte is neither 9E nor A1 leaves the state of
`case 0xE000` as it is: the default branch has no `PC += 2`. -/
theorem exec_E_default (op : Nat) (s : Chip8)
    (h1 : op % 256 ≠ 0x9E) (h2 : op % 256 ≠ 0xA1) : exec_E op s = .ok s := by
  simp [exec_E, land_00FF, h1, h2]

/-- The word 0xE000 at 0x200: the step returns with PC still 0x200. -/
theorem emulate_cycle_E000_keeps_pc :
    fetch (boot [0xE0, 0x00]) = .ok 0xE000 ∧
    pc_of (emulate_cycle 0 (boot [0xE0, 0x00])) = some 0x200 := by
  decide

/-- C1, as stated, fails: the opcode 0x5001 is not in the instruction table
(the table has 5XY0 only), and `emulate_cycle` runs it as the skip 5XY0 on
V0 and V0, so that PC goes from 0x200 to 0x204 and not to 0x202. -/
theorem c1_counterexample :
    (boot [0x50, 0x01]).PC ≤ 4094 ∧
    fetch (boot [0x50, 0x01]) = .ok 0x5001 ∧
    ¬ in_instruction_table 0x5001 ∧
    pc_of (emulate_cycle 0 (boot [0x50, 0x01])) = some 0x204 ∧
    emulate_cycle 0 (boot [0x50, 0x01]) ≠
      .ok { boot [0x50, 0x01] with PC := (boot [0x50, 0x01]).PC + 2 } := by
  refine ⟨by decide, by decide, by decide, by decide, ?_⟩
  intro h
  have h2 := congrArg pc_of h
  revert h2
  decide

/-- C1 (amended): for every state whose opcode at PC (PC <= 4094) is outside the
instruction table and is not of the families that `emulate_cycle` decodes
without looking at the rest of the word (0NE0, 0NEE, 5XYN, 9XYN) nor of the
family EXNN, one `emulate_cycle` step changes PC to PC+2 and nothing else. -/
theorem c1_unrecognized_opcode_advances (rnd : Nat) (s : Chip8) (op : Nat)
    (hpc : s.PC ≤ 4094) (hop : fetch s = .ok op)
    (hun : ¬ in_instruction_table op)
    (h0 : ¬ (op / 4096 = 0x0 ∧ (op % 256 = 0xE0 ∨ op % 256 = 0xEE)))
    (h5 : op / 4096 ≠ 0x5) (h9 : op / 4096 ≠ 0x9) (hE : op / 4096 ≠ 0xE) :
    emulate_cycle rnd s = .ok { s with PC := s.PC + 2 } := by
  have hb := (fetch_ok_bounds hop).2
  rw [emulate_cycle_of_fetch rnd hop, ← pc_add2_eq (by omega)]
  have hhi : op / 4096 < 16 := by omega
  simp only [in_instruction_table, not_or, not_and] at hun
  obtain ⟨t1, t2, t3, t4, t5, t6, -, t8, t9, t10, -, t12, t13, t14, t15, -, t17⟩ := hun
  interval_cases hq : op / 4096
  · -- 0NNN with low byte other than E0, EE
    have a1 : op % 256 ≠ 0xE0 := fun h => h0 ⟨rfl, Or.inl h⟩
    have a2 : op % 256 ≠ 0xEE := fun h => h0 ⟨rfl, Or.inr h⟩
    simp [execute, land_F000, hq, exec_0, land_00FF, a1, a2]
  all_goals first
    | omega
    | skip
  · -- 8XYN with N in 8..D or F
    have a := t10 rfl
    simp only [not_or] at a
    have b0 : op % 16 ≠ 0 := by omega
    have b1 : op % 16 ≠ 1 := by omega
    have b2 : op % 16 ≠ 2 := by omega
    have b3 : op % 16 ≠ 3 := by omega
    have b4 : op % 16 ≠ 4 := by omega
    have b5 : op % 16 ≠ 5 := by omega
    have b6 : op % 16 ≠ 6 := by omega
    have b7 : op % 16 ≠ 7 := by omega
    simp [execute, land_F000, hq, exec_8, land_000F, b0, b1, b2, b3, b4, b5, b6, b7, a.2]
  · -- FXNN with NN outside the table
    have a := t17 rfl
    simp only [not_or] at a
    obtain ⟨a1, a2, a3, a4, a5, a6, a7, a8, a9⟩ := a
    simp [execute, land_F000, hq, exec_F, land_00FF, a1, a2, a3, a4, a5, a6, a7, a8, a9]

/-- C1 (amended), at a concrete input: the opcode 0x8128 at 0x200. -/
theorem c1_unrecognized_opcode_advances_witness :
    emulate_cycle 0 (boot [0x81, 0x28]) =
      .ok { boot [0x81, 0x28] with PC := (boot [0x81, 0x28]).PC + 2 } :=
  c1_unrecognized_opcode_advances 0 (boot [0x81, 0x28]) 0x8128
    (by decide) (by decide) (by decide) (by decide) (by decide) (by decide) (by decide)

/-! ## C2: PC after a non-branch, non-skip instruction -/

theorem draw_rows_ok (memory : Nat → Nat) (I X Y : Nat) :
    ∀ (n yline : Nat) (st : (Nat → Nat) × (Nat → Nat)), I + yline + n ≤ 4096 →
      ∃ st1, draw_rows memory I X Y yline n st = .ok st1 := by
  intro n
  induction n with
  | zero => intro yline st _; exact ⟨st, rfl⟩
  | succ n ih =>
    intro yline st h
    have h1 : I + yline < MEMORY_SIZE := by simp only [MEMORY_SIZE]; omega
    simp only [draw_rows, if_pos h1]
    exact ih (yline + 1) _ (by omega)

theorem store_regs_ok (V : Nat → Nat) (I : Nat) :
    ∀ (n i : Nat) (memory : Nat → Nat), I + i + n ≤ 4096 →
      ∃ m, store_regs V I i n memory = .ok m := by
  intro n
  induction n with
  | zero => intro i memory _; exact ⟨memory, rfl⟩
  | succ n ih =>
    intro i memory h
    have h1 : I + i < MEMORY_SIZE := by simp only [MEMORY_SIZE]; omega
    simp only [store_regs, if_pos h1]
    exact ih (i + 1) _ (by omega)

theorem load_regs_ok (memory : Nat → Nat) (I : Nat) :
    ∀ (n i : Nat) (V : Nat → Nat), I + i + n ≤ 4096 →
      ∃ v, load_regs memory I i n V = .ok v := by
  intro n
  induction n with
  | zero => intro i V _; exact ⟨V, rfl⟩
  | succ n ih =>
    intro i V h
    have h1 : I + i < MEMORY_SIZE := by simp only [MEMORY_SIZE]; omega
    simp only [load_regs, if_pos h1]
    exact ih (i + 1) _ (by omega)

theorem pc_add2_PC (s : Chip8) : (pc_add2 s).PC = (s.PC + 2) % 65536 := rfl

theorem exists_of_pc_of {r : Except Fault Chip8} {n : Nat} (h : pc_of r = some n) :
    ∃ s1, r = .ok s1 ∧ s1.PC = n := by
  cases r with
  | error e => simp [pc_of] at h
  | ok s1 => exact ⟨s1, rfl, by simpa [pc_of] using h⟩

/-- C2: after one step on a recognized non-branch, non-skip instruction whose
memory addresses are in range, PC is the PC before plus exactly 2. -/
theorem c2_non_branch_pc_plus_two (rnd : Nat) (s : Chip8) (op : Nat)
    (hpc : s.PC ≤ 4094) (hop : fetch s = .ok op)
    (hin : non_branch_non_skip op) (haddr : addresses_in_range s op) :
    ∃ s1, emulate_cycle rnd s = .ok s1 ∧ s1.PC = s.PC + 2 := by
  have hb := (fetch_ok_bounds hop).2
  have hmod : (s.PC + 2) % 65536 = s.PC + 2 := Nat.mod_eq_of_lt (by omega)
  rw [emulate_cycle_of_fetch rnd hop]
  apply exists_of_pc_of
  obtain ⟨hD, h33, h5565⟩ := haddr
  rcases hin with h | h | h | ⟨h, -⟩ | h | h | h | ⟨h, hnn⟩
  · subst h
    simp [execute, exec_0, land_F000, land_00FF, pc_of, pc_add2_PC, hmod]
  · simp [execute, land_F000, h, pc_of, pc_add2_PC, hmod]
  · simp [execute, land_F000, h, pc_of, pc_add2_PC, hmod]
  · simp only [execute, land_F000, h, exec_8]
    simp [pc_of, pc_add2_PC, hmod]
  · simp [execute, land_F000, h, pc_of, pc_add2_PC, hmod]
  · simp [execute, land_F000, h, pc_of, pc_add2_PC, hmod]
  · obtain ⟨st, hst⟩ := draw_rows_ok s.memory s.I ((op &&& 0x0F00) >>> 8)
      ((op &&& 0x00F0) >>> 4) (op &&& 0x000F) 0 (upd s.V 0xF 0, s.gfx)
      (by rw [land_000F]; have := hD h; omega)
    simp only [execute, land_F000, h, exec_D]
    simp [hst, pc_of, pc_add2_PC, hmod]
  · have hx : op / 256 % 16 < 16 := Nat.mod_lt _ (by norm_num)
    rcases hnn with e | e | e | e | e | e | e | e
    · simp [execute, land_F000, h, exec_F, land_00FF, e, pc_of, pc_add2_PC, hmod]
    · simp [execute, land_F000, h, exec_F, land_00FF, e, pc_of, pc_add2_PC, hmod]
    · simp [execute, land_F000, h, exec_F, land_00FF, e, pc_of, pc_add2_PC, hmod]
    · simp [execute, land_F000, h, exec_F, land_00FF, e, pc_of, pc_add2_PC, hmod]
    · simp [execute, land_F000, h, exec_F, land_00FF, e, pc_of, pc_add2_PC, hmod]
    · have hI := h33 h e
      have i0 : ¬ (MEMORY_SIZE ≤ s.I) := by simp only [MEMORY_SIZE]; omega
      have i1 : ¬ (MEMORY_SIZE ≤ s.I + 1) := by simp only [MEMORY_SIZE]; omega
      have i2 : ¬ (MEMORY_SIZE ≤ s.I + 2) := by simp only [MEMORY_SIZE]; omega
      simp [execute, land_F000, h, exec_F, land_00FF, e, i0, i1, i2, pc_of, pc_add2_PC, hmod]
    · obtain ⟨m, hm⟩ := store_regs_ok s.V s.I ((op &&& 0x0F00) >>> 8 + 1) 0 s.memory
        (by rw [land_0F00_shr]; have := h5565 h (Or.inl e); omega)
      simp only [execute, land_F000, h, exec_F, land_00FF, e]
      simp [hm, pc_of, pc_add2_PC, hmod]
    · obtain ⟨v, hv⟩ := load_regs_ok s.memory s.I ((op &&& 0x0F00) >>> 8 + 1) 0 s.V
        (by rw [land_0F00_shr]; have := h5565 h (Or.inr e); omega)
      simp only [execute, land_F000, h, exec_F, land_00FF, e]
      simp [hv, pc_of, pc_add2_PC, hmod]

/-- C2 at a concrete input: DXYN with a 5-row sprite (the font glyph at I = 0). -/
theorem c2_non_branch_pc_plus_two_witness :
    ∃ s1, emulate_cycle 0 (boot [0xD0, 0x15]) = .ok s1 ∧ s1.PC = 0x200 + 2 :=
  c2_non_branch_pc_plus_two 0 (boot [0xD0, 0x15]) 0xD015
    (by decide) (by decide) (by decide) (by decide)

/-! ## C3: skip instructions -/

theorem skip_result (s : Chip8) (c : Prop) [Decidable c] (hpc : s.PC ≤ 4092) :
    pc_add2 (if c then pc_add2 s else s) = { s with PC := s.PC + (if c then 4 else 2) } := by
  have h2 : (s.PC + 2) % 65536 = s.PC + 2 := Nat.mod_eq_of_lt (by omega)
  have h4 : (s.PC + 2 + 2) % 65536 = s.PC + 4 := Nat.mod_eq_of_lt (by omega)
  by_cases hc : c
  · simp [hc, pc_add2, h2, h4]
  · simp [hc, pc_add2, h2]

/-- C3: for each skip instruction (3XNN, 4XNN, 5XY0, 9XY0, and EX9E / EXA1 with
V[X] <= 15) and every state with PC <= 4092, one step adds 4 to PC when the
skip condition holds and 2 when it does not, and changes nothing else. -/
theorem c3_skip_instructions (rnd : Nat) (s : Chip8) (hpc : s.PC ≤ 4092) :
    (∀ X NN, X < 16 → NN < 256 → fetch s = .ok (0x3000 + 0x100 * X + NN) →
      emulate_cycle rnd s = .ok { s with PC := s.PC + (if s.V X = NN then 4 else 2) }) ∧
    (∀ X NN, X < 16 → NN < 256 → fetch s = .ok (0x4000 + 0x100 * X + NN) →
      emulate_cycle rnd s = .ok { s with PC := s.PC + (if s.V X ≠ NN then 4 else 2) }) ∧
    (∀ X Y, X < 16 → Y < 16 → fetch s = .ok (0x5000 + 0x100 * X + 0x10 * Y) →
      emulate_cycle rnd s = .ok { s with PC := s.PC + (if s.V X = s.V Y then 4 else 2) }) ∧
    (∀ X Y, X < 16 → Y < 16 → fetch s = .ok (0x9000 + 0x100 * X + 0x10 * Y) →
      emulate_cycle rnd s = .ok { s with PC := s.PC + (if s.V X ≠ s.V Y then 4 else 2) }) ∧
    (∀ X, X < 16 → s.V X ≤ 15 → fetch s = .ok (0xE09E + 0x100 * X) →
      emulate_cycle rnd s =
        .ok { s with PC := s.PC + (if s.keys (s.V X) ≠ 0 then 4 else 2) }) ∧
    (∀ X, X < 16 → s.V X ≤ 15 → fetch s = .ok (0xE0A1 + 0x100 * X) →
      emulate_cycle rnd s =
        .ok { s with PC := s.PC + (if s.keys (s.V X) = 0 then 4 else 2) }) := by
  refine ⟨?_, ?_, ?_, ?_, ?_, ?_⟩
  · intro X NN hX hNN hop
    have e1 : (0x3000 + 0x100 * X + NN) / 4096 % 16 = 3 := by omega
    have e2 : (0x3000 + 0x100 * X + NN) / 256 % 16 = X := by omega
    have e3 : (0x3000 + 0x100 * X + NN) % 256 = NN := by omega
    rw [emulate_cycle_of_fetch rnd hop, ← skip_result s _ hpc]
    simp [execute, land_F000, land_0F00_shr, land_00FF, e1, e2, e3]
  · intro X NN hX hNN hop
    have e1 : (0x4000 + 0x100 * X + NN) / 4096 % 16 = 4 := by omega
    have e2 : (0x4000 + 0x100 * X + NN) / 256 % 16 = X := by omega
    have e3 : (0x4000 + 0x100 * X + NN) % 256 = NN := by omega
    rw [emulate_cycle_of_fetch rnd hop, ← skip_result s _ hpc]
    simp [execute, land_F000, land_0F00_shr, land_00FF, e1, e2, e3]
  · intro X Y hX hY hop
    have e1 : (0x5000 + 0x100 * X + 0x10 * Y) / 4096 % 16 = 5 := by omega
    have e2 : (0x5000 + 0x100 * X + 0x10 * Y) / 256 % 16 = X := by omega
    have e3 : (0x5000 + 0x100 * X + 0x10 * Y) / 16 % 16 = Y := by omega
    rw [emulate_cycle_of_fetch rnd hop, ← skip_result s _ hpc]
    simp [execute, land_F000, land_0F00_shr, land_00F0_shr, e1, e2, e3]
  · intro X Y hX hY hop
    have e1 : (0x9000 + 0x100 * X + 0x10 * Y) / 4096 % 16 = 9 := by omega
    have e2 : (0x9000 + 0x100 * X + 0x10 * Y) / 256 % 16 = X := by omega
    have e3 : (0x9000 + 0x100 * X + 0x10 * Y) / 16 % 16 = Y := by omega
    rw [emulate_cycle_of_fetch rnd hop, ← skip_result s _ hpc]
    simp [execute, land_F000, land_0F00_shr, land_00F0_shr, e1, e2, e3]
  · intro X hX hV hop
    have e1 : (0xE09E + 0x100 * X) / 4096 % 16 = 14 := by omega
    have e2 : (0xE09E + 0x100 * X) / 256 % 16 = X := by omega
    have e3 : (0xE09E + 0x100 * X) % 256 = 0x9E := by omega
    have hV2 : s.V X < 16 := by omega
    rw [emulate_cycle_of_fetch rnd hop, ← skip_result s _ hpc]
    simp [execute, exec_E, land_F000, land_0F00_shr, land_00FF, e1, e2, e3, hV2]
  · intro X hX hV hop
    have e1 : (0xE0A1 + 0x100 * X) / 4096 % 16 = 14 := by omega
    have e2 : (0xE0A1 + 0x100 * X) / 256 % 16 = X := by omega
    have e3 : (0xE0A1 + 0x100 * X) % 256 = 0xA1 := by omega
    have hV2 : s.V X < 16 := by omega
    rw [emulate_cycle_of_fetch rnd hop, ← skip_result s _ hpc]
    simp [execute, exec_E, land_F000, land_0F00_shr, land_00FF, e1, e2, e3, hV2]

/-- C3 at concrete inputs, one for each of the six forms, on the state after
`init_chip8` (all registers and keys zero): 3000 skips, 4000 does not, 5010
skips, 9010 does not, E09E does not, E0A1 skips. -/
theorem c3_skip_instructions_witness :
    emulate_cycle 0 (boot [0x30, 0x00]) = .ok { boot [0x30, 0x00] with PC := 0x204 } ∧
    emulate_cycle 0 (boot [0x40, 0x00]) = .ok { boot [0x40, 0x00] with PC := 0x202 } ∧
    emulate_cycle 0 (boot [0x50, 0x10]) = .ok { boot [0x50, 0x10] with PC := 0x204 } ∧
    emulate_cycle 0 (boot [0x90, 0x10]) = .ok { boot [0x90, 0x10] with PC := 0x202 } ∧
    emulate_cycle 0 (boot [0xE0, 0x9E]) = .ok { boot [0xE0, 0x9E] with PC := 0x202 } ∧
    emulate_cycle 0 (boot [0xE0, 0xA1]) = .ok { boot [0xE0, 0xA1] with PC := 0x204 } :=
  ⟨(c3_skip_instructions 0 (boot [0x30, 0x00]) (by decide)).1 0 0 (by decide) (by decide)
      (by decide),
   (c3_skip_instructions 0 (boot [0x40, 0x00]) (by decide)).2.1 0 0 (by decide) (by decide)
      (by decide),
   (c3_skip_instructions 0 (boot [0x50, 0x10]) (by decide)).2.2.1 0 1 (by decide) (by decide)
      (by decide),
   (c3_skip_instructions 0 (boot [0x90, 0x10]) (by decide)).2.2.2.1 0 1 (by decide) (by decide)
      (by decide),
   (c3_skip_instructions 0 (boot [0xE0, 0x9E]) (by decide)).2.2.2.2.1 0 (by decide) (by decide)
      (by decide),
   (c3_skip_instructions 0 (boot [0xE0, 0xA1]) (by decide)).2.2.2.2.2 0 (by decide) (by decide)
      (by decide)⟩

/-! ## C4, C5: subtraction and addition with flag -/

theorem wrap8_cast (z : Int) : ((wrap8 z : Nat) : Int) = z % 256 := by
  unfold wrap8
  exact Int.toNat_of_nonneg (Int.emod_nonneg z (by norm_num))

/-- C4, as stated, fails for Y = 0xF: with V0 = 5 and VF = 3 the instruction
80F5 writes the flag VF = 1 first and then subtracts the new VF, so V0 = 4 and
not (5 - 3) mod 256 = 2. -/
theorem c4_counterexample :
    fetch (boot_with_regs 0x80 0xF5 (upd (upd (fun _ => 0) 0 5) 0xF 3)) = .ok 0x80F5 ∧
    reg_of (emulate_cycle 0 (boot_with_regs 0x80 0xF5 (upd (upd (fun _ => 0) 0 5) 0xF 3))) 0
      = some 4 ∧
    reg_of (emulate_cycle 0 (boot_with_regs 0x80 0xF5 (upd (upd (fun _ => 0) 0 5) 0xF 3))) 0xF
      = some 1 ∧
    reg_of (emulate_cycle 0 (boot_with_regs 0x80 0xF5 (upd (upd (fun _ => 0) 0 5) 0xF 3))) 0
      ≠ some (wrap8 (5 - 3)) := by
  decide

/-- C4 (amended): for X, Y in 0..15 with X other than 0xF, after 8XY5 VF holds 1
if vx >= vy and 0 otherwise; V[X] holds (vx - vy) mod 256 when Y is not 0xF,
and (vx - VF) mod 256 with the new flag VF when Y is 0xF (the flag is written
before the subtraction reads V[Y]). -/
theorem c4_sub_with_flag (rnd : Nat) (s : Chip8) (X Y : Nat)
    (hX : X < 16) (hY : Y < 16) (hXF : X ≠ 0xF)
    (hop : fetch s = .ok (0x8005 + 0x100 * X + 0x10 * Y)) :
    ∃ s1, emulate_cycle rnd s = .ok s1 ∧
      s1.V 0xF = (if s.V X ≥ s.V Y then 1 else 0) ∧
      (Y ≠ 0xF → (s1.V X : Int) = ((s.V X : Int) - (s.V Y : Int)) % 256) ∧
      (Y = 0xF → (s1.V X : Int) = ((s.V X : Int) - (s1.V 0xF : Int)) % 256) := by
  have e1 : (0x8005 + 0x100 * X + 0x10 * Y) / 4096 % 16 = 8 := by omega
  have e2 : (0x8005 + 0x100 * X + 0x10 * Y) / 256 % 16 = X := by omega
  have e3 : (0x8005 + 0x100 * X + 0x10 * Y) / 16 % 16 = Y := by omega
  have e4 : (0x8005 + 0x100 * X + 0x10 * Y) % 16 = 5 := by omega
  have hFX : (15 : Nat) ≠ X := fun h => hXF h.symm
  rw [emulate_cycle_of_fetch rnd hop]
  refine ⟨_, by simp only [execute, land_F000, e1, exec_8]; simp; rfl, ?_, ?_, ?_⟩
  · simp [pc_add2, land_0F00_shr, land_00F0_shr, land_000F, e2, e3, e4, upd_apply, hFX]
  · intro hYF
    simp [pc_add2, land_0F00_shr, land_00F0_shr, land_000F, e2, e3, e4, upd_apply, hXF, hYF,
      wrap8_cast]
  · intro hYF
    subst hYF
    simp [pc_add2, land_0F00_shr, land_00F0_shr, land_000F, e2, e3, e4, upd_apply, hXF, hFX,
      wrap8_cast]

/-- C4 (amended) at a concrete input: 8015 with V0 = 3, V1 = 5 gives V0 = 254, VF = 0. -/
theorem c4_sub_with_flag_witness :
    ∃ s1, emulate_cycle 0 (boot_with_regs 0x80 0x15 (upd (upd (fun _ => 0) 0 3) 1 5)) = .ok s1 ∧
      s1.V 0xF = 0 ∧
      ((1 : Nat) ≠ 0xF → (s1.V 0 : Int) = 254) ∧
      ((1 : Nat) = 0xF → (s1.V 0 : Int) = ((3 : Int) - (s1.V 0xF : Int)) % 256) :=
  c4_sub_with_flag 0 (boot_with_regs 0x80 0x15 (upd (upd (fun _ => 0) 0 3) 1 5)) 0 1
    (by decide) (by decide) (by decide) (by decide)

/-- C5: for X, Y in 0..15 with X other than 0xF and byte-valued registers, after
8XY4 V[X] holds (vx + vy) mod 256 and VF holds 1 if vx + vy > 255 and 0
otherwise. -/
theorem c5_add_with_carry (rnd : Nat) (s : Chip8) (X Y : Nat)
    (hX : X < 16) (hY : Y < 16) (hXF : X ≠ 0xF)
    (hVX : s.V X < 256) (hVY : s.V Y < 256)
    (hop : fetch s = .ok (0x8004 + 0x100 * X + 0x10 * Y)) :
    ∃ s1, emulate_cycle rnd s = .ok s1 ∧
      s1.V X = (s.V X + s.V Y) % 256 ∧
      s1.V 0xF = (if s.V X + s.V Y > 255 then 1 else 0) := by
  have e1 : (0x8004 + 0x100 * X + 0x10 * Y) / 4096 % 16 = 8 := by omega
  have e2 : (0x8004 + 0x100 * X + 0x10 * Y) / 256 % 16 = X := by omega
  have e3 : (0x8004 + 0x100 * X + 0x10 * Y) / 16 % 16 = Y := by omega
  have e4 : (0x8004 + 0x100 * X + 0x10 * Y) % 16 = 4 := by omega
  have hFX : (15 : Nat) ≠ X := fun h => hXF h.symm
  have hsum : (s.V X + s.V Y) % 65536 = s.V X + s.V Y := Nat.mod_eq_of_lt (by omega)
  rw [emulate_cycle_of_fetch rnd hop]
  refine ⟨_, by simp only [execute, land_F000, e1, exec_8]; simp; rfl, ?_, ?_⟩
  · simp [pc_add2, land_0F00_shr, land_00F0_shr, land_000F, land_00FF, e2, e3, e4, hsum]
  · simp [pc_add2, land_0F00_shr, land_00F0_shr, land_000F, land_00FF, e2, e3, e4, hsum,
      upd_apply, hFX]

/-- C5 at a concrete input: 8014 with V0 = 0xFF, V1 = 0x01 gives V0 = 0x00, VF = 1. -/
theorem c5_add_with_carry_witness :
    ∃ s1, emulate_cycle 0 (boot_with_regs 0x80 0x14 (upd (upd (fun _ => 0) 0 0xFF) 1 0x01))
        = .ok s1 ∧ s1.V 0 = 0x00 ∧ s1.V 0xF = 1 :=
  c5_add_with_carry 0 (boot_with_regs 0x80 0x14 (upd (upd (fun _ => 0) 0 0xFF) 1 0x01)) 0 1
    (by decide) (by decide) (by decide) (by decide) (by decide) (by decide)

/-! ## The sprite drawing of DXYN -/

theorem hit_fst_ne (st : (Nat → Nat) × (Nat → Nat)) (idx i : Nat) (hi : i ≠ 0xF) :
    (hit st idx).1 i = st.1 i := by
  unfold hit
  by_cases h : st.2 idx = 1
  · simp [h, upd_apply, hi]
  · simp [h]

theorem apply_hits_nil (st : (Nat → Nat) × (Nat → Nat)) : apply_hits [] st = st := rfl

theorem apply_hits_cons (a : Nat) (L : List Nat) (st : (Nat → Nat) × (Nat → Nat)) :
    apply_hits (a :: L) st = apply_hits L (hit st a) := rfl

theorem apply_hits_append (L1 L2 : List Nat) (st : (Nat → Nat) × (Nat → Nat)) :
    apply_hits (L1 ++ L2) st = apply_hits L2 (apply_hits L1 st) := by
  simp [apply_hits, List.foldl_append]

theorem apply_hits_fst_ne (L : List Nat) (i : Nat) (hi : i ≠ 0xF) :
    ∀ st : (Nat → Nat) × (Nat → Nat), (apply_hits L st).1 i = st.1 i := by
  induction L with
  | nil => intro st; rfl
  | cons a L ih =>
    intro st
    rw [apply_hits_cons, ih, hit_fst_ne st a i hi]

theorem draw_pixel_eq_hit (X Y yline xline : Nat) (st : (Nat → Nat) × (Nat → Nat)) :
    draw_pixel X Y yline xline st = hit st (pixel_index (st.1 X) (st.1 Y) yline xline) := rfl

theorem draw_row_eq (X Y yline px : Nat) (hX : X ≠ 0xF) (hY : Y ≠ 0xF) :
    ∀ (n xline : Nat) (st : (Nat → Nat) × (Nat → Nat)),
      draw_row X Y yline px xline n st =
        apply_hits (row_hits (st.1 X) (st.1 Y) yline px xline n) st := by
  intro n
  induction n with
  | zero => intro xline st; rfl
  | succ n ih =>
    intro xline st
    by_cases hb : sprite_bit px xline
    · have hb2 : px &&& (0x80 >>> xline) ≠ 0 := hb
      simp only [draw_row, row_hits, if_pos hb, if_pos hb2, apply_hits_cons]
      rw [ih, draw_pixel_eq_hit, hit_fst_ne _ _ X hX, hit_fst_ne _ _ Y hY]
    · have hb2 : ¬ (px &&& (0x80 >>> xline) ≠ 0) := hb
      simp only [draw_row, row_hits, if_neg hb, if_neg hb2]
      rw [ih]

theorem draw_rows_eq (memory : Nat → Nat) (I X Y : Nat) (hX : X ≠ 0xF) (hY : Y ≠ 0xF) :
    ∀ (n yline : Nat) (st : (Nat → Nat) × (Nat → Nat)), I + yline + n ≤ 4096 →
      draw_rows memory I X Y yline n st =
        .ok (apply_hits (sprite_hits memory I (st.1 X) (st.1 Y) yline n) st) := by
  intro n
  induction n with
  | zero => intro yline st _; rfl
  | succ n ih =>
    intro yline st h
    have h1 : I + yline < MEMORY_SIZE := by simp only [MEMORY_SIZE]; omega
    simp only [draw_rows, if_pos h1, sprite_hits, apply_hits_append]
    rw [ih (yline + 1) _ (by omega), draw_row_eq X Y yline _ hX hY,
      apply_hits_fst_ne _ X hX, apply_hits_fst_ne _ Y hY]

theorem mem_row_hits (vx vy r px p : Nat) :
    ∀ (n c : Nat), p ∈ row_hits vx vy r px c n ↔
      ∃ c1, c ≤ c1 ∧ c1 < c + n ∧ sprite_bit px c1 ∧ p = pixel_index vx vy r c1 := by
  intro n
  induction n with
  | zero =>
    intro c
    simp only [row_hits, List.not_mem_nil, false_iff]
    rintro ⟨c1, h1, h2, -⟩
    omega
  | succ n ih =>
    intro c
    by_cases hb : sprite_bit px c
    · simp only [row_hits, if_pos hb, List.mem_cons, ih]
      constructor
      · rintro (h | ⟨c1, h1, h2, h3, h4⟩)
        · exact ⟨c, le_refl _, by omega, hb, h⟩
        · exact ⟨c1, by omega, by omega, h3, h4⟩
      · rintro ⟨c1, h1, h2, h3, h4⟩
        by_cases hc : c1 = c
        · subst hc; exact Or.inl h4
        · exact Or.inr ⟨c1, by omega, by omega, h3, h4⟩
    · simp only [row_hits, if_neg hb, ih]
      constructor
      · rintro ⟨c1, h1, h2, h3, h4⟩
        exact ⟨c1, by omega, by omega, h3, h4⟩
      · rintro ⟨c1, h1, h2, h3, h4⟩
        have hc : c1 ≠ c := fun h => hb (h ▸ h3)
        exact ⟨c1, by omega, by omega, h3, h4⟩

theorem mem_sprite_hits (memory : Nat → Nat) (I vx vy p : Nat) :
    ∀ (n r : Nat), p ∈ sprite_hits memory I vx vy r n ↔
      ∃ r1 c1, r ≤ r1 ∧ r1 < r + n ∧ c1 < 8 ∧ sprite_bit (memory (I + r1)) c1 ∧
        p = pixel_index vx vy r1 c1 := by
  intro n
  induction n with
  | zero =>
    intro r
    simp only [sprite_hits, List.not_mem_nil, false_iff]
    rintro ⟨r1, c1, h1, h2, -⟩
    omega
  | succ n ih =>
    intro r
    simp only [sprite_hits, List.mem_append, ih, mem_row_hits]
    constructor
    · rintro (⟨c1, -, h2, h3, h4⟩ | ⟨r1, c1, h1, h2, h3, h4, h5⟩)
      · exact ⟨r, c1, le_refl _, by omega, by omega, h3, h4⟩
      · exact ⟨r1, c1, by omega, by omega, h3, h4, h5⟩
    · rintro ⟨r1, c1, h1, h2, h3, h4, h5⟩
      by_cases hr : r1 = r
      · subst hr; exact Or.inl ⟨c1, Nat.zero_le _, by omega, h4, h5⟩
      · exact Or.inr ⟨r1, c1, by omega, by omega, h3, h4, h5⟩

theorem pixel_index_inj (vx vy r c r1 c1 : Nat) (hr : r < 32) (hr1 : r1 < 32)
    (hc : c < 64) (hc1 : c1 < 64)
    (h : pixel_index vx vy r c = pixel_index vx vy r1 c1) : r = r1 ∧ c = c1 := by
  simp only [pixel_index, SCREEN_HEIGHT, SCREEN_WIDTH] at h
  omega

theorem nodup_row_hits (vx vy r px : Nat) (hr : r < 32) :
    ∀ (n c : Nat), c + n ≤ 64 → (row_hits vx vy r px c n).Nodup := by
  intro n
  induction n with
  | zero => intro c _; exact List.nodup_nil
  | succ n ih =>
    intro c h
    by_cases hb : sprite_bit px c
    · simp only [row_hits, if_pos hb, List.nodup_cons]
      refine ⟨?_, ih (c + 1) (by omega)⟩
      rw [mem_row_hits]
      rintro ⟨c1, h1, h2, -, h4⟩
      have := (pixel_index_inj vx vy r c r c1 hr hr (by omega) (by omega) h4).2
      omega
    · simp only [row_hits, if_neg hb]
      exact ih (c + 1) (by omega)

theorem nodup_sprite_hits (memory : Nat → Nat) (I vx vy : Nat) :
    ∀ (n r : Nat), r + n ≤ 32 → (sprite_hits memory I vx vy r n).Nodup := by
  intro n
  induction n with
  | zero => intro r _; exact List.nodup_nil
  | succ n ih =>
    intro r h
    simp only [sprite_hits]
    rw [List.nodup_append]
    refine ⟨nodup_row_hits vx vy r _ (by omega) 8 0 (by omega), ih (r + 1) (by omega), ?_⟩
    intro p hp1 hp2
    rw [mem_row_hits] at hp1
    rw [mem_sprite_hits] at hp2
    obtain ⟨c1, -, h2, -, h4⟩ := hp1
    obtain ⟨r2, c2, g1, g2, g3, -, g5⟩ := hp2
    have := (pixel_index_inj vx vy r c1 r2 c2 (by omega) (by omega) (by omega) (by omega)
      (h4.symm.trans g5)).1
    omega

theorem hit_snd (st : (Nat → Nat) × (Nat → Nat)) (idx p : Nat) :
    (hit st idx).2 p = if p = idx then st.2 idx ^^^ 1 else st.2 p := rfl

theorem hit_fst_F (st : (Nat → Nat) × (Nat → Nat)) (idx : Nat) :
    (hit st idx).1 0xF = if st.2 idx = 1 then 1 else st.1 0xF := by
  unfold hit
  by_cases h : st.2 idx = 1
  · simp [h]
  · simp [h]

/-- After the hits of a list without repetition, each listed pixel is toggled
once and every other pixel is as before. -/
theorem apply_hits_gfx (p : Nat) :
    ∀ (L : List Nat) (st : (Nat → Nat) × (Nat → Nat)), L.Nodup →
      (apply_hits L st).2 p = if p ∈ L then st.2 p ^^^ 1 else st.2 p := by
  intro L
  induction L with
  | nil => intro st _; simp [apply_hits_nil]
  | cons a L ih =>
    intro st hnd
    rw [List.nodup_cons] at hnd
    rw [apply_hits_cons, ih _ hnd.2, hit_snd]
    by_cases hpa : p = a
    · subst hpa
      simp [hnd.1]
    · by_cases hpL : p ∈ L
      · simp [hpa, hpL]
      · simp [hpa, hpL]

/-- After the hits of a list without repetition, VF is 1 when some listed pixel
was 1 before, and as before otherwise. -/
theorem apply_hits_vf :
    ∀ (L : List Nat) (st : (Nat → Nat) × (Nat → Nat)), L.Nodup →
      (apply_hits L st).1 0xF = if ∃ p ∈ L, st.2 p = 1 then 1 else st.1 0xF := by
  intro L
  induction L with
  | nil => intro st _; simp [apply_hits_nil]
  | cons a L ih =>
    intro st hnd
    rw [List.nodup_cons] at hnd
    rw [apply_hits_cons, ih _ hnd.2, hit_fst_F]
    have key : (∃ p ∈ L, (hit st a).2 p = 1) ↔ (∃ p ∈ L, st.2 p = 1) := by
      constructor
      · rintro ⟨p, hp, h⟩
        have hpa : p ≠ a := fun e => hnd.1 (e ▸ hp)
        exact ⟨p, hp, by rwa [hit_snd, if_neg hpa] at h⟩
      · rintro ⟨p, hp, h⟩
        have hpa : p ≠ a := fun e => hnd.1 (e ▸ hp)
        exact ⟨p, hp, by rwa [hit_snd, if_neg hpa]⟩
    by_cases h1 : ∃ p ∈ L, st.2 p = 1
    · have h2 : ∃ p ∈ a :: L, st.2 p = 1 := by
        obtain ⟨p, hp, h⟩ := h1
        exact ⟨p, List.mem_cons_of_mem _ hp, h⟩
      rw [if_pos (key.mpr h1), if_pos h2]
    · rw [if_neg (fun h => h1 (key.mp h))]
      by_cases ha : st.2 a = 1
      · rw [if_pos ha, if_pos ⟨a, List.mem_cons_self _ _, ha⟩]
      · rw [if_neg ha, if_neg]
        rintro ⟨p, hp, h⟩
        rcases List.mem_cons.mp hp with e | hp
        · exact ha (e ▸ h)
        · exact h1 ⟨p, hp, h⟩

/-- The step of DXYN (X and Y other than 0xF, sprite rows inside memory), in
terms of the list of pixels hit. -/
theorem execute_DXYN (rnd : Nat) (s : Chip8) (X Y N : Nat)
    (hX : X < 16) (hY : Y < 16) (hN : N < 16) (hXF : X ≠ 0xF) (hYF : Y ≠ 0xF)
    (hI : s.I + N ≤ 4096) :
    execute rnd (0xD000 + 0x100 * X + 0x10 * Y + N) s =
      .ok (pc_add2 { s with
        V := (apply_hits (sprite_hits s.memory s.I (s.V X) (s.V Y) 0 N) (upd s.V 0xF 0, s.gfx)).1
        gfx := (apply_hits (sprite_hits s.memory s.I (s.V X) (s.V Y) 0 N) (upd s.V 0xF 0, s.gfx)).2
        draw_flag := 1 }) := by
  have e1 : (0xD000 + 0x100 * X + 0x10 * Y + N) / 4096 % 16 = 13 := by omega
  have e2 : (0xD000 + 0x100 * X + 0x10 * Y + N) / 256 % 16 = X := by omega
  have e3 : (0xD000 + 0x100 * X + 0x10 * Y + N) / 16 % 16 = Y := by omega
  have e4 : (0xD000 + 0x100 * X + 0x10 * Y + N) % 16 = N := by omega
  simp only [execute, land_F000, e1, exec_D, land_0F00_shr, land_00F0_shr, land_000F, e2, e3, e4]
  rw [draw_rows_eq s.memory s.I X Y hXF hYF N 0 _ (by omega)]
  simp [upd_ne _ _ _ _ hXF, upd_ne _ _ _ _ hYF]

theorem pixel_index_lt (vx vy r c : Nat) : pixel_index vx vy r c < 2048 := by
  simp only [pixel_index, SCREEN_HEIGHT, SCREEN_WIDTH]
  omega

theorem xor_one_xor_one (a : Nat) : (a ^^^ 1) ^^^ 1 = a := by
  rw [Nat.xor_assoc, Nat.xor_self, Nat.xor_zero]

theorem run_cycles_two (r1 r2 : Nat) (s s1 : Chip8) (h : emulate_cycle r1 s = .ok s1) :
    run_cycles [r1, r2] s = emulate_cycle r2 s1 := by
  simp only [run_cycles, h]
  cases emulate_cycle r2 s1 <;> rfl

/-- Two successive DXYN steps (the same opcode at PC and at PC+2, X and Y other
than 0xF): the second step hits the same list of pixels as the first. -/
theorem draw_twice (rnd1 rnd2 : Nat) (s : Chip8) (X Y N : Nat)
    (hX : X < 16) (hY : Y < 16) (hN : N < 16) (hXF : X ≠ 0xF) (hYF : Y ≠ 0xF)
    (hI : s.I + N ≤ 4096)
    (hop1 : fetch s = .ok (0xD000 + 0x100 * X + 0x10 * Y + N))
    (hop2 : fetch { s with PC := s.PC + 2 } = .ok (0xD000 + 0x100 * X + 0x10 * Y + N)) :
    ∃ s2, run_cycles [rnd1, rnd2] s = .ok s2 ∧
      s2.V = (apply_hits (sprite_hits s.memory s.I (s.V X) (s.V Y) 0 N)
        (upd (apply_hits (sprite_hits s.memory s.I (s.V X) (s.V Y) 0 N)
          (upd s.V 0xF 0, s.gfx)).1 0xF 0,
         (apply_hits (sprite_hits s.memory s.I (s.V X) (s.V Y) 0 N)
          (upd s.V 0xF 0, s.gfx)).2)).1 ∧
      s2.gfx = (apply_hits (sprite_hits s.memory s.I (s.V X) (s.V Y) 0 N)
        (upd (apply_hits (sprite_hits s.memory s.I (s.V X) (s.V Y) 0 N)
          (upd s.V 0xF 0, s.gfx)).1 0xF 0,
         (apply_hits (sprite_hits s.memory s.I (s.V X) (s.V Y) 0 N)
          (upd s.V 0xF 0, s.gfx)).2)).2 := by
  have hpc := (fetch_ok_bounds hop1).1
  have hmod : (s.PC + 2) % 65536 = s.PC + 2 := Nat.mod_eq_of_lt (by omega)
  have h1 := execute_DXYN rnd1 s X Y N hX hY hN hXF hYF hI
  rw [← emulate_cycle_of_fetch rnd1 hop1] at h1
  rw [run_cycles_two rnd1 rnd2 s _ h1]
  have hf : fetch (pc_add2 { s with
      V := (apply_hits (sprite_hits s.memory s.I (s.V X) (s.V Y) 0 N) (upd s.V 0xF 0, s.gfx)).1
      gfx := (apply_hits (sprite_hits s.memory s.I (s.V X) (s.V Y) 0 N) (upd s.V 0xF 0, s.gfx)).2
      draw_flag := 1 }) = .ok (0xD000 + 0x100 * X + 0x10 * Y + N) := by
    rw [← hop2]
    simp [fetch, pc_add2, hmod]
  have h2 := execute_DXYN rnd2 (pc_add2 { s with
      V := (apply_hits (sprite_hits s.memory s.I (s.V X) (s.V Y) 0 N) (upd s.V 0xF 0, s.gfx)).1
      gfx := (apply_hits (sprite_hits s.memory s.I (s.V X) (s.V Y) 0 N) (upd s.V 0xF 0, s.gfx)).2
      draw_flag := 1 }) X Y N hX hY hN hXF hYF hI
  rw [emulate_cycle_of_fetch rnd2 hf, h2]
  refine ⟨_, rfl, ?_, ?_⟩
  · simp [pc_add2, apply_hits_fst_ne _ X hXF, apply_hits_fst_ne _ Y hYF,
      upd_ne _ _ _ _ hXF, upd_ne _ _ _ _ hYF]
  · simp [pc_add2, apply_hits_fst_ne _ X hXF, apply_hits_fst_ne _ Y hYF,
      upd_ne _ _ _ _ hXF, upd_ne _ _ _ _ hYF]

/-! ## C6: drawing twice restores the grid -/

/-- C6: for every sprite height N in 0..15 with the sprite rows inside memory
and X, Y other than 0xF, two DXYN steps in succession (the same opcode at PC
and PC+2, hence the same I, V[X], V[Y]) leave the display grid exactly as it
was before the first draw, whatever the grid holds. -/
theorem c6_draw_twice_restores_grid (rnd1 rnd2 : Nat) (s : Chip8) (X Y N : Nat)
    (hX : X < 16) (hY : Y < 16) (hN : N < 16) (hXF : X ≠ 0xF) (hYF : Y ≠ 0xF)
    (hI : s.I + N ≤ 4096)
    (hop1 : fetch s = .ok (0xD000 + 0x100 * X + 0x10 * Y + N))
    (hop2 : fetch { s with PC := s.PC + 2 } = .ok (0xD000 + 0x100 * X + 0x10 * Y + N)) :
    ∃ s2, run_cycles [rnd1, rnd2] s = .ok s2 ∧ s2.gfx = s.gfx := by
  obtain ⟨s2, hrun, -, hg⟩ := draw_twice rnd1 rnd2 s X Y N hX hY hN hXF hYF hI hop1 hop2
  refine ⟨s2, hrun, ?_⟩
  have hnd := nodup_sprite_hits s.memory s.I (s.V X) (s.V Y) N 0 (by omega)
  rw [hg]
  funext p
  rw [apply_hits_gfx p _ _ hnd]
  simp only []
  rw [apply_hits_gfx p _ _ hnd]
  by_cases hp : p ∈ sprite_hits s.memory s.I (s.V X) (s.V Y) 0 N
  · simp [hp, xor_one_xor_one]
  · simp [hp]

/-- C6 at a concrete input: the 5-row font glyph at I = 0 drawn twice at (0, 0). -/
theorem c6_draw_twice_restores_grid_witness :
    ∃ s2, run_cycles [0, 0] (boot [0xD0, 0x15, 0xD0, 0x15]) = .ok s2 ∧
      s2.gfx = (boot [0xD0, 0x15, 0xD0, 0x15]).gfx :=
  c6_draw_twice_restores_grid 0 0 (boot [0xD0, 0x15, 0xD0, 0x15]) 0 1 5
    (by decide) (by decide) (by decide) (by decide) (by decide) (by decide)
    (by decide) (by decide)

/-! ## C7: the collision flag of the second draw -/

/-- C7, as stated, fails: the row 0xF0 (font byte at I = 0) drawn at (0, 0) on a
grid whose pixels (0..3, 0) are lit erases them at the first draw (VF = 1) and
lights them again at the second draw, where nothing collides: VF = 0. -/
theorem c7_counterexample :
    fetch (boot_with_gfx [0xD0, 0x01, 0xD0, 0x01] (fun i => if i < 4 then 1 else 0))
      = .ok 0xD001 ∧
    reg_of (emulate_cycle 0
      (boot_with_gfx [0xD0, 0x01, 0xD0, 0x01] (fun i => if i < 4 then 1 else 0))) 0xF
      = some 1 ∧
    reg_of (run_cycles [0, 0]
      (boot_with_gfx [0xD0, 0x01, 0xD0, 0x01] (fun i => if i < 4 then 1 else 0))) 0xF
      = some 0 ∧
    reg_of (run_cycles [0, 0]
      (boot_with_gfx [0xD0, 0x01, 0xD0, 0x01] (fun i => if i < 4 then 1 else 0))) 0xF
      ≠ some 1 := by
  decide

/-- C7 (amended): for a sprite of height N in 0..15 inside memory, X and Y other
than 0xF and a grid of cells 0 or 1, when DXYN is run twice in succession VF
after the second draw is 1 if some set sprite bit (r, c) has its target pixel
((V[X]+c) mod 64, (V[Y]+r) mod 32) equal to 0 before the first draw, and 0 if
there is no such bit (no set bit at all, or every target lit before). -/
theorem c7_second_draw_flag (rnd1 rnd2 : Nat) (s : Chip8) (X Y N : Nat)
    (hX : X < 16) (hY : Y < 16) (hN : N < 16) (hXF : X ≠ 0xF) (hYF : Y ≠ 0xF)
    (hI : s.I + N ≤ 4096)
    (hgfx : ∀ p, p < 2048 → s.gfx p = 0 ∨ s.gfx p = 1)
    (hop1 : fetch s = .ok (0xD000 + 0x100 * X + 0x10 * Y + N))
    (hop2 : fetch { s with PC := s.PC + 2 } = .ok (0xD000 + 0x100 * X + 0x10 * Y + N)) :
    ∃ s2, run_cycles [rnd1, rnd2] s = .ok s2 ∧
      ((∃ r c, r < N ∧ c < 8 ∧ sprite_bit (s.memory (s.I + r)) c ∧
          s.gfx (pixel_index (s.V X) (s.V Y) r c) = 0) → s2.V 0xF = 1) ∧
      ((¬ ∃ r c, r < N ∧ c < 8 ∧ sprite_bit (s.memory (s.I + r)) c ∧
          s.gfx (pixel_index (s.V X) (s.V Y) r c) = 0) → s2.V 0xF = 0) := by
  obtain ⟨s2, hrun, hV, -⟩ := draw_twice rnd1 rnd2 s X Y N hX hY hN hXF hYF hI hop1 hop2
  refine ⟨s2, hrun, ?_, ?_⟩
  all_goals
    have hnd := nodup_sprite_hits s.memory s.I (s.V X) (s.V Y) N 0 (by omega)
    rw [hV, apply_hits_vf _ _ hnd]
    simp only [upd_same]
  · rintro ⟨r, c, hr, hc, hb, h0⟩
    have hmem : pixel_index (s.V X) (s.V Y) r c ∈
        sprite_hits s.memory s.I (s.V X) (s.V Y) 0 N :=
      (mem_sprite_hits _ _ _ _ _ _ _).mpr ⟨r, c, Nat.zero_le _, by omega, hc, hb, rfl⟩
    rw [if_pos]
    refine ⟨_, hmem, ?_⟩
    rw [apply_hits_gfx _ _ _ hnd, if_pos hmem]
    simp only [h0]
    rfl
  · intro hno
    rw [if_neg]
    rintro ⟨p, hp, h1⟩
    rw [apply_hits_gfx _ _ _ hnd, if_pos hp] at h1
    obtain ⟨r, c, -, hr, hc, hb, rfl⟩ := (mem_sprite_hits _ _ _ _ _ _ _).mp hp
    apply hno
    refine ⟨r, c, by omega, hc, hb, ?_⟩
    rcases hgfx _ (pixel_index_lt (s.V X) (s.V Y) r c) with h | h
    · exact h
    · simp only [h] at h1
      exact absurd h1 (by decide)

/-- C7 (amended) at a concrete input: the font glyph at I = 0 drawn twice on the
clear grid. -/
theorem c7_second_draw_flag_witness :
    ∃ s2, run_cycles [0, 0] (boot [0xD0, 0x15, 0xD0, 0x15]) = .ok s2 ∧
      ((∃ r c, r < 5 ∧ c < 8 ∧
          sprite_bit ((boot [0xD0, 0x15, 0xD0, 0x15]).memory (0 + r)) c ∧
          (boot [0xD0, 0x15, 0xD0, 0x15]).gfx (pixel_index 0 0 r c) = 0) → s2.V 0xF = 1) ∧
      ((¬ ∃ r c, r < 5 ∧ c < 8 ∧
          sprite_bit ((boot [0xD0, 0x15, 0xD0, 0x15]).memory (0 + r)) c ∧
          (boot [0xD0, 0x15, 0xD0, 0x15]).gfx (pixel_index 0 0 r c) = 0) → s2.V 0xF = 0) :=
  c7_second_draw_flag 0 0 (boot [0xD0, 0x15, 0xD0, 0x15]) 0 1 5
    (by decide) (by decide) (by decide) (by decide) (by decide) (by decide)
    (fun _ _ => Or.inl rfl) (by decide) (by decide)

/-! ## C8: FX55 then FX65 -/

theorem store_regs_eq (V : Nat → Nat) (I : Nat) :
    ∀ (n i : Nat) (memory : Nat → Nat), I + i + n ≤ 4096 →
      store_regs V I i n memory =
        .ok (fun a => if I + i ≤ a ∧ a < I + i + n then V (a - I) else memory a) := by
  intro n
  induction n with
  | zero =>
    intro i memory _
    simp only [store_regs]
    congr 1
    funext a
    rw [if_neg (by omega)]
  | succ n ih =>
    intro i memory h
    have h1 : I + i < MEMORY_SIZE := by simp only [MEMORY_SIZE]; omega
    simp only [store_regs, if_pos h1]
    rw [ih (i + 1) _ (by omega)]
    congr 1
    funext a
    by_cases ha : a = I + i
    · subst ha
      rw [if_neg (by omega), if_pos (by omega), upd_same]
      congr 1
      omega
    · rw [upd_ne _ _ _ _ ha]
      by_cases hr : I + (i + 1) ≤ a ∧ a < I + (i + 1) + n
      · rw [if_pos hr, if_pos (by omega)]
      · rw [if_neg hr, if_neg (by omega)]

theorem load_regs_eq (memory : Nat → Nat) (I : Nat) :
    ∀ (n i : Nat) (V : Nat → Nat), I + i + n ≤ 4096 →
      load_regs memory I i n V =
        .ok (fun j => if i ≤ j ∧ j < i + n then memory (I + j) else V j) := by
  intro n
  induction n with
  | zero =>
    intro i V _
    simp only [load_regs]
    congr 1
    funext j
    rw [if_neg (by omega)]
  | succ n ih =>
    intro i V h
    have h1 : I + i < MEMORY_SIZE := by simp only [MEMORY_SIZE]; omega
    simp only [load_regs, if_pos h1]
    rw [ih (i + 1) _ (by omega)]
    congr 1
    funext j
    by_cases hj : j = i
    · subst hj
      rw [if_neg (by omega), if_pos (by omega), upd_same]
    · rw [upd_ne _ _ _ _ hj]
      by_cases hr : i + 1 ≤ j ∧ j < i + 1 + n
      · rw [if_pos hr, if_pos (by omega)]
      · rw [if_neg hr, if_neg (by omega)]

/-- C8: for X in 0..15 and I + X < 4096, the step FX55 followed by the step FX65
(same X; I is not changed by either) leaves all registers V0..VF as they were
before the FX55, and memory[I+i] = V[i] for every i in 0..X. -/
theorem c8_store_load_roundtrip (rnd1 rnd2 : Nat) (s : Chip8) (X : Nat)
    (hX : X < 16) (hI : s.I + X < 4096)
    (hop1 : fetch s = .ok (0xF055 + 0x100 * X))
    (hop2 : next_fetch (emulate_cycle rnd1 s) = .ok (0xF065 + 0x100 * X)) :
    ∃ s2, run_cycles [rnd1, rnd2] s = .ok s2 ∧ s2.V = s.V ∧ s2.I = s.I ∧
      ∀ i, i ≤ X → s2.memory (s.I + i) = s.V i := by
  have e1 : (0xF055 + 0x100 * X) / 4096 % 16 = 15 := by omega
  have e2 : (0xF055 + 0x100 * X) / 256 % 16 = X := by omega
  have e3 : (0xF055 + 0x100 * X) % 256 = 0x55 := by omega
  have f1 : (0xF065 + 0x100 * X) / 4096 % 16 = 15 := by omega
  have f2 : (0xF065 + 0x100 * X) / 256 % 16 = X := by omega
  have f3 : (0xF065 + 0x100 * X) % 256 = 0x65 := by omega
  have h1 : emulate_cycle rnd1 s = .ok (pc_add2 { s with memory :=
      fun a => if s.I + 0 ≤ a ∧ a < s.I + 0 + (X + 1) then s.V (a - s.I) else s.memory a }) := by
    rw [emulate_cycle_of_fetch rnd1 hop1]
    simp only [execute, land_F000, e1, exec_F, land_00FF, e3, land_0F00_shr, e2]
    rw [store_regs_eq s.V s.I (X + 1) 0 s.memory (by omega)]
    simp
  rw [h1] at hop2
  rw [run_cycles_two rnd1 rnd2 s _ h1, emulate_cycle_of_fetch rnd2 hop2]
  simp only [execute, land_F000, f1, exec_F, land_00FF, f3, land_0F00_shr, f2]
  rw [load_regs_eq _ _ (X + 1) 0 _ (by simp only [pc_add2]; omega)]
  refine ⟨_, rfl, ?_, ?_, ?_⟩
  · funext j
    show (if 0 ≤ j ∧ j < 0 + (X + 1) then
        (if s.I + 0 ≤ s.I + j ∧ s.I + j < s.I + 0 + (X + 1) then s.V (s.I + j - s.I)
          else s.memory (s.I + j))
      else s.V j) = s.V j
    by_cases hj : 0 ≤ j ∧ j < 0 + (X + 1)
    · rw [if_pos hj, if_pos (by omega)]
      congr 1
      omega
    · rw [if_neg hj]
  · rfl
  · intro i hi
    show (if s.I + 0 ≤ s.I + i ∧ s.I + i < s.I + 0 + (X + 1) then s.V (s.I + i - s.I)
      else s.memory (s.I + i)) = s.V i
    rw [if_pos (by omega)]
    congr 1
    omega

/-- C8 at a concrete input: F255 then F265 with I = 0x300 and V0, V1, V2 = 7, 8, 9. -/
theorem c8_store_load_roundtrip_witness :
    ∃ s2, run_cycles [0, 0]
        { boot [0xF2, 0x55, 0xF2, 0x65] with
          I := 0x300, V := upd (upd (upd (fun _ => 0) 0 7) 1 8) 2 9 } = .ok s2 ∧
      s2.V = upd (upd (upd (fun _ => 0) 0 7) 1 8) 2 9 ∧ s2.I = 0x300 ∧
      ∀ i, i ≤ 2 → s2.memory (0x300 + i) = upd (upd (upd (fun _ => 0) 0 7) 1 8) 2 9 i :=
  c8_store_load_roundtrip 0 0
    { boot [0xF2, 0x55, 0xF2, 0x65] with
      I := 0x300, V := upd (upd (upd (fun _ => 0) 0 7) 1 8) 2 9 } 2
    (by decide) (by decide) (by decide) (by decide)

/-! ## C9: FX33 -/

/-- C9: for V[X] = v in 0..255 and I + 2 < 4096, after FX33 the bytes memory[I],
memory[I+1], memory[I+2] are the decimal digits (each at most 9) v / 100,
(v / 10) mod 10 and v mod 10, so that 100 * memory[I] + 10 * memory[I+1] +
memory[I+2] = v, and no other memory byte changes. -/
theorem c9_bcd (rnd : Nat) (s : Chip8) (X : Nat)
    (hX : X < 16) (hv : s.V X ≤ 255) (hI : s.I + 2 < 4096)
    (hop : fetch s = .ok (0xF033 + 0x100 * X)) :
    ∃ s1, emulate_cycle rnd s = .ok s1 ∧
      s1.memory s.I = s.V X / 100 ∧
      s1.memory (s.I + 1) = s.V X / 10 % 10 ∧
      s1.memory (s.I + 2) = s.V X % 10 ∧
      s1.memory s.I ≤ 9 ∧ s1.memory (s.I + 1) ≤ 9 ∧ s1.memory (s.I + 2) ≤ 9 ∧
      100 * s1.memory s.I + 10 * s1.memory (s.I + 1) + s1.memory (s.I + 2) = s.V X ∧
      ∀ a, a ≠ s.I → a ≠ s.I + 1 → a ≠ s.I + 2 → s1.memory a = s.memory a := by
  have e1 : (0xF033 + 0x100 * X) / 4096 % 16 = 15 := by omega
  have e2 : (0xF033 + 0x100 * X) / 256 % 16 = X := by omega
  have e3 : (0xF033 + 0x100 * X) % 256 = 0x33 := by omega
  have i0 : ¬ (MEMORY_SIZE ≤ s.I) := by simp only [MEMORY_SIZE]; omega
  have i1 : ¬ (MEMORY_SIZE ≤ s.I + 1) := by simp only [MEMORY_SIZE]; omega
  have i2 : ¬ (MEMORY_SIZE ≤ s.I + 2) := by simp only [MEMORY_SIZE]; omega
  rw [emulate_cycle_of_fetch rnd hop]
  simp only [execute, land_F000, e1, exec_F, land_00FF, e3, land_0F00_shr, e2]
  simp only [show ((15 * 4096 : Nat) = 0) = False from by simp, if_false, i0, i1, i2,
    Nat.reduceMul, Nat.reduceEqDiff]
  have a1 : s.I ≠ s.I + 1 := by omega
  have a2 : s.I ≠ s.I + 2 := by omega
  have a3 : s.I + 1 ≠ s.I + 2 := by omega
  refine ⟨_, rfl, ?_, ?_, ?_, ?_, ?_, ?_, ?_, ?_⟩
  · simp [pc_add2, upd_apply]
  · simp [pc_add2, upd_apply]
  · simp [pc_add2, upd_apply]
  · simp only [pc_add2, upd_apply, if_neg a1, if_neg a2, if_true]; omega
  · simp only [pc_add2, upd_apply, if_neg a3, if_true]; omega
  · simp only [pc_add2, upd_apply, if_true]; omega
  · simp only [pc_add2, upd_apply, if_neg a1, if_neg a2, if_neg a3, if_true]; omega
  · intro a a0 a1 a2
    simp [pc_add2, upd_apply, a0, a1, a2]

/-- C9 at a concrete input: F033 with V0 = 156 and I = 0x300 writes 1, 5, 6. -/
theorem c9_bcd_witness :
    ∃ s1, emulate_cycle 0
        { boot [0xF0, 0x33] with I := 0x300, V := upd (fun _ => 0) 0 156 } = .ok s1 ∧
      s1.memory 0x300 = 1 ∧ s1.memory (0x300 + 1) = 5 ∧ s1.memory (0x300 + 2) = 6 ∧
      s1.memory 0x300 ≤ 9 ∧ s1.memory (0x300 + 1) ≤ 9 ∧ s1.memory (0x300 + 2) ≤ 9 ∧
      100 * s1.memory 0x300 + 10 * s1.memory (0x300 + 1) + s1.memory (0x300 + 2) = 156 ∧
      ∀ a, a ≠ 0x300 → a ≠ 0x300 + 1 → a ≠ 0x300 + 2 →
        s1.memory a = (boot [0xF0, 0x33]).memory a :=
  c9_bcd 0 { boot [0xF0, 0x33] with I := 0x300, V := upd (fun _ => 0) 0 156 } 0
    (by decide) (by decide) (by decide) (by decide)

/-! ## C10: FX0A -/

theorem key_scan_none (keys : Nat → Nat) :
    ∀ (n i : Nat), (∀ j, i ≤ j → j < i + n → keys j = 0) → key_scan keys i n = none := by
  intro n
  induction n with
  | zero => intro i _; rfl
  | succ n ih =>
    intro i h
    have h0 : ¬ (keys i ≠ 0) := by simp [h i (le_refl _) (by omega)]
    simp only [key_scan, if_neg h0]
    exact ih (i + 1) (fun j hj1 hj2 => h j (by omega) (by omega))

theorem key_scan_some (keys : Nat → Nat) (k : Nat) (hk : keys k ≠ 0) :
    ∀ (n i : Nat), i ≤ k → k < i + n → (∀ j, i ≤ j → j < k → keys j = 0) →
      key_scan keys i n = some k := by
  intro n
  induction n with
  | zero => intro i h1 h2 _; omega
  | succ n ih =>
    intro i h1 h2 h
    by_cases hik : i = k
    · subst hik
      simp only [key_scan, if_pos hk]
    · have h0 : ¬ (keys i ≠ 0) := by simp [h i (le_refl _) (by omega)]
      simp only [key_scan, if_neg h0]
      exact ih (i + 1) (by omega) (by omega) (fun j hj1 hj2 => h j (by omega) hj2)

/-- C10: for every state whose opcode at PC is FX0A: when no key of keys[0..15]
is pressed, a step (and hence any number of steps) leaves the whole state, PC
included, unchanged; when some key is pressed, the step sets V[X] to the lowest
index k with keys[k] pressed and adds exactly 2 to PC, changing nothing else. -/
theorem c10_wait_for_key (s : Chip8) (X : Nat) (hX : X < 16)
    (hop : fetch s = .ok (0xF00A + 0x100 * X)) :
    ((∀ i, i < 16 → s.keys i = 0) →
      (∀ rnd, emulate_cycle rnd s = .ok s) ∧ (∀ rnds, run_cycles rnds s = .ok s)) ∧
    ((∃ i, i < 16 ∧ s.keys i ≠ 0) →
      ∃ k, k < 16 ∧ s.keys k ≠ 0 ∧ (∀ j, j < k → s.keys j = 0) ∧
        ∀ rnd, emulate_cycle rnd s = .ok { s with V := upd s.V X k, PC := s.PC + 2 }) := by
  have e1 : (0xF00A + 0x100 * X) / 4096 % 16 = 15 := by omega
  have e2 : (0xF00A + 0x100 * X) / 256 % 16 = X := by omega
  have e3 : (0xF00A + 0x100 * X) % 256 = 0x0A := by omega
  have hpc := (fetch_ok_bounds hop).1
  have hmod : (s.PC + 2) % 65536 = s.PC + 2 := Nat.mod_eq_of_lt (by omega)
  constructor
  · intro hno
    have hstep : ∀ rnd, emulate_cycle rnd s = .ok s := by
      intro rnd
      rw [emulate_cycle_of_fetch rnd hop]
      have hs := key_scan_none s.keys 16 0 (fun j _ hj => hno j (by omega))
      simp [execute, land_F000, e1, exec_F, land_00FF, e3, hs]
    refine ⟨hstep, ?_⟩
    intro rnds
    induction rnds with
    | nil => rfl
    | cons r rest ih => simp only [run_cycles, hstep r, ih]
  · intro hsome
    classical
    have hspec := Nat.find_spec hsome
    refine ⟨Nat.find hsome, hspec.1, hspec.2, ?_, ?_⟩
    · intro j hj
      have := Nat.find_min hsome hj
      by_contra hne
      exact this ⟨by omega, hne⟩
    · intro rnd
      rw [emulate_cycle_of_fetch rnd hop]
      have hs := key_scan_some s.keys (Nat.find hsome) hspec.2 16 0 (Nat.zero_le _)
        (by omega) (fun j _ hj => by
          have := Nat.find_min hsome hj
          by_contra hne
          exact this ⟨by omega, hne⟩)
      simp [execute, land_F000, e1, exec_F, land_00FF, e3, land_0F00_shr, e2, hs, pc_add2, hmod]

/-- C10 at concrete inputs: F00A with no key pressed stalls (one step and three
steps give the same state back); with keys 3 and 9 pressed it sets V0 to the
lowest pressed index and PC to 0x202. -/
theorem c10_wait_for_key_witness :
    ((∀ rnd, emulate_cycle rnd (boot [0xF0, 0x0A]) = .ok (boot [0xF0, 0x0A])) ∧
      (∀ rnds, run_cycles rnds (boot [0xF0, 0x0A]) = .ok (boot [0xF0, 0x0A]))) ∧
    (∃ k, k < 16 ∧
      ({ boot [0xF0, 0x0A] with keys := fun i => if i = 3 ∨ i = 9 then 1 else 0 } : Chip8).keys k
        ≠ 0 ∧
      (∀ j, j < k →
        ({ boot [0xF0, 0x0A] with keys := fun i => if i = 3 ∨ i = 9 then 1 else 0 } : Chip8).keys j
          = 0) ∧
      ∀ rnd, emulate_cycle rnd
          { boot [0xF0, 0x0A] with keys := fun i => if i = 3 ∨ i = 9 then 1 else 0 } =
        .ok { boot [0xF0, 0x0A] with
              keys := fun i => if i = 3 ∨ i = 9 then 1 else 0
              V := upd (fun _ => 0) 0 k
              PC := 0x200 + 2 }) :=
  ⟨(c10_wait_for_key (boot [0xF0, 0x0A]) 0 (by decide) (by decide)).1 (fun _ _ => rfl),
   (c10_wait_for_key
      { boot [0xF0, 0x0A] with keys := fun i => if i = 3 ∨ i = 9 then 1 else 0 } 0
      (by decide) (by decide)).2 ⟨3, by decide, by decide⟩⟩


/-! ## C11: the timer tick -/

/-- C11: one timer tick leaves delay = d-1 if d > 0 and 0 if d = 0, and
independently sound = s-1 if s > 0 and 0 if s = 0 (a timer at 0 stays at 0);
nothing else in the state changes. -/
theorem c11_timer_tick (s : Chip8) :
    (tick_timers s).delay_timer = (if s.delay_timer > 0 then s.delay_timer - 1 else 0) ∧
    (tick_timers s).sound_timer = (if s.sound_timer > 0 then s.sound_timer - 1 else 0) ∧
    (s.delay_timer = 0 → (tick_timers s).delay_timer = 0) ∧
    (s.sound_timer = 0 → (tick_timers s).sound_timer = 0) ∧
    tick_timers s = { s with delay_timer := (tick_timers s).delay_timer
                             sound_timer := (tick_timers s).sound_timer } := by
  unfold tick_timers
  by_cases hd : s.delay_timer > 0 <;> by_cases hs : s.sound_timer > 0
  · simp [hd, hs]; omega
  · simp [hd, hs]; omega
  · simp [hd, hs]; omega
  · simp [hd, hs]; omega


/-- C11 at a concrete input: delay = 0 stays 0 and sound = 5 becomes 4. -/
theorem c11_timer_tick_witness :
    (tick_timers { init_chip8 with sound_timer := 5 }).delay_timer = 0 ∧
    (tick_timers { init_chip8 with sound_timer := 5 }).sound_timer = 4 :=
  ⟨(c11_timer_tick { init_chip8 with sound_timer := 5 }).2.2.1 rfl,
   (c11_timer_tick { init_chip8 with sound_timer := 5 }).2.1⟩

/-! ## C12: the first step of a program 6X NN -/

theorem shl8_or (a b : Nat) (hb : b < 256) : (a <<< 8) ||| b = 256 * a + b := by
  have h := Nat.mul_add_lt_is_or (show b < 2 ^ 8 by omega) a
  rw [Nat.shiftLeft_eq, Nat.mul_comm a (2 ^ 8), ← h]

theorem boot_two_memory (b0 b1 : Nat) (a : Nat) :
    (boot [b0, b1]).memory a =
      if a = 0x200 then b0 % 256 else if a = 0x201 then b1 % 256 else fontset.getD a 0 := by
  by_cases h0 : a = 0x200
  · subst h0; rfl
  · by_cases h1 : a = 0x201
    · subst h1; rfl
    · rw [if_neg h0, if_neg h1]
      have hr : ¬ (0x200 ≤ a ∧ a < 0x200 + [b0, b1].length) := by
        simp only [List.length_cons, List.length_nil]; omega
      show (if 0x200 ≤ a ∧ a < 0x200 + [b0, b1].length then [b0, b1].getD (a - 0x200) 0 % 256
        else fontset.getD a 0) = _
      rw [if_neg hr]

theorem fetch_boot_two (b0 b1 : Nat) (h0 : b0 < 256) (h1 : b1 < 256) :
    fetch (boot [b0, b1]) = .ok (256 * b0 + b1) := by
  have hpc : (boot [b0, b1]).PC = 0x200 := rfl
  rw [fetch_eq_of_le (by rw [hpc]; decide), hpc, boot_two_memory, boot_two_memory]
  simp only [if_true, Nat.reduceAdd, Nat.reduceEqDiff, if_false,
    Nat.mod_eq_of_lt h0, Nat.mod_eq_of_lt h1]
  rw [shl8_or _ _ h1, Nat.mod_eq_of_lt (by omega)]

theorem fontset_getD_zero (a : Nat) (h : 0x50 ≤ a) : fontset.getD a 0 = 0 := by
  have hl : fontset.length = 80 := rfl
  rw [List.getD_eq_default]
  omega

/-- C12: from the state of `init_chip8` with the program bytes 6X NN at 0x200,
one step yields V[X] = NN and PC = 0x202 and leaves all the rest as in the
initial state, which is zero everywhere except PC = 0x200, the font table at
[0, 0x50) and the two program bytes. -/
theorem c12_first_step_load (rnd X NN : Nat) (hX : X < 16) (hNN : NN < 256) :
    emulate_cycle rnd (boot [0x60 + X, NN]) =
      .ok { boot [0x60 + X, NN] with V := upd (fun _ => 0) X NN, PC := 0x202 } ∧
    (boot [0x60 + X, NN]).PC = 0x200 ∧
    (boot [0x60 + X, NN]).V = (fun _ => 0) ∧
    (boot [0x60 + X, NN]).I = 0 ∧
    (boot [0x60 + X, NN]).SP = 0 ∧
    (boot [0x60 + X, NN]).stack = (fun _ => 0) ∧
    (boot [0x60 + X, NN]).delay_timer = 0 ∧
    (boot [0x60 + X, NN]).sound_timer = 0 ∧
    (boot [0x60 + X, NN]).gfx = (fun _ => 0) ∧
    (boot [0x60 + X, NN]).keys = (fun _ => 0) ∧
    (boot [0x60 + X, NN]).draw_flag = 0 ∧
    (boot [0x60 + X, NN]).memory 0x200 = 0x60 + X ∧
    (boot [0x60 + X, NN]).memory 0x201 = NN ∧
    (∀ a, a < 0x50 → (boot [0x60 + X, NN]).memory a = fontset.getD a 0) ∧
    (∀ a, 0x50 ≤ a → a ≠ 0x200 → a ≠ 0x201 → (boot [0x60 + X, NN]).memory a = 0) := by
  have hb0 : 0x60 + X < 256 := by omega
  refine ⟨?_, rfl, rfl, rfl, rfl, rfl, rfl, rfl, rfl, rfl, rfl, ?_, ?_, ?_, ?_⟩
  · have hf := fetch_boot_two (0x60 + X) NN hb0 hNN
    have e1 : (256 * (0x60 + X) + NN) / 4096 % 16 = 6 := by omega
    have e2 : (256 * (0x60 + X) + NN) / 256 % 16 = X := by omega
    have e3 : (256 * (0x60 + X) + NN) % 256 = NN := by omega
    rw [emulate_cycle_of_fetch rnd hf]
    simp only [execute, land_F000, e1, land_0F00_shr, e2, land_00FF, e3]
    rfl
  · rw [boot_two_memory]; simp [Nat.mod_eq_of_lt hb0]
  · rw [boot_two_memory]; simp [Nat.mod_eq_of_lt hNN]
  · intro a ha
    rw [boot_two_memory, if_neg (by omega), if_neg (by omega)]
  · intro a ha h0 h1
    rw [boot_two_memory, if_neg h0, if_neg h1, fontset_getD_zero a ha]

/-- C12 at X = 0, NN = 5: the bytes 60 05 give V0 = 5 and PC = 0x202. -/
theorem c12_first_step_load_witness :
    emulate_cycle 0 (boot [0x60, 0x05]) =
      .ok { boot [0x60, 0x05] with V := upd (fun _ => 0) 0 5, PC := 0x202 } :=
  (c12_first_step_load 0 0 5 (by decide) (by decide)).1


/-! ## C13: the stack pointer -/

/-- C13 at the program 2200 (a call of its own address): after 16 steps SP is
16, and the 17th step stores the return address at `stack[16]`, outside the
array `stack[STACK_SIZE]`: the call has no check of SP against STACK_SIZE. -/
theorem c13_call_writes_past_stack :
    [0x22, 0x00].length ≤ 3584 ∧
    sp_of (run_cycles (List.replicate 16 0) (boot [0x22, 0x00])) = some 16 ∧
    pc_of (run_cycles (List.replicate 16 0) (boot [0x22, 0x00])) = some 0x200 ∧
    fault_of (run_cycles (List.replicate 17 0) (boot [0x22, 0x00]))
      = some (Fault.stack_oob 16) := by
  decide

/-! ## C14: memory accesses -/

/-- C14, as stated, fails: the program 1FFF jumps to 0xFFF and the next opcode
fetch reads `memory[0xFFF + 1]`, outside the 4096 bytes of memory. -/
theorem c14_counterexample :
    [0x1F, 0xFF].length ≤ 3584 ∧
    pc_of (run_cycles [0] (boot [0x1F, 0xFF])) = some 0xFFF ∧
    fault_of (run_cycles [0, 0] (boot [0x1F, 0xFF])) = some (Fault.memory_oob 4096) := by
  decide

theorem exec_0_no_memory_fault (op : Nat) (s : Chip8) (a : Nat) :
    exec_0 op s ≠ .error (.memory_oob a) := by
  intro h
  simp only [exec_0] at h
  split_ifs at h
  simp at h

theorem exec_E_no_memory_fault (op : Nat) (s : Chip8) (a : Nat) :
    exec_E op s ≠ .error (.memory_oob a) := by
  intro h
  simp only [exec_E] at h
  split_ifs at h <;> simp at h

theorem exec_D_no_memory_fault (op : Nat) (s : Chip8) (a : Nat)
    (h : s.I + op % 16 ≤ 4096) : exec_D op s ≠ .error (.memory_oob a) := by
  obtain ⟨st, hst⟩ := draw_rows_ok s.memory s.I ((op &&& 0x0F00) >>> 8)
    ((op &&& 0x00F0) >>> 4) (op &&& 0x000F) 0 (upd s.V 0xF 0, s.gfx)
    (by rw [land_000F]; omega)
  simp only [exec_D, hst]
  simp

theorem exec_F_no_memory_fault (op : Nat) (s : Chip8) (a : Nat)
    (h33 : op % 256 = 0x33 → s.I + 2 < 4096)
    (h5565 : op % 256 = 0x55 ∨ op % 256 = 0x65 → s.I + op / 256 % 16 < 4096) :
    exec_F op s ≠ .error (.memory_oob a) := by
  intro h
  simp only [exec_F, land_00FF, land_0F00_shr] at h
  by_cases c1 : op % 256 = 0x07
  · simp [c1] at h
  by_cases c2 : op % 256 = 0x0A
  · simp only [c2] at h
    cases hk : key_scan s.keys 0 16 <;> simp [hk] at h
  by_cases c3 : op % 256 = 0x15
  · simp [c3] at h
  by_cases c4 : op % 256 = 0x18
  · simp [c4] at h
  by_cases c5 : op % 256 = 0x1E
  · simp [c5] at h
  by_cases c6 : op % 256 = 0x29
  · simp [c6] at h
  by_cases c7 : op % 256 = 0x33
  · have hI := h33 c7
    have i0 : ¬ (MEMORY_SIZE ≤ s.I) := by simp only [MEMORY_SIZE]; omega
    have i1 : ¬ (MEMORY_SIZE ≤ s.I + 1) := by simp only [MEMORY_SIZE]; omega
    have i2 : ¬ (MEMORY_SIZE ≤ s.I + 2) := by simp only [MEMORY_SIZE]; omega
    simp [c7, i0, i1, i2] at h
  by_cases c8 : op % 256 = 0x55
  · obtain ⟨m, hm⟩ := store_regs_ok s.V s.I (op / 256 % 16 + 1) 0 s.memory
      (by have := h5565 (Or.inl c8); omega)
    simp [c8, hm] at h
  by_cases c9 : op % 256 = 0x65
  · obtain ⟨v, hv⟩ := load_regs_ok s.memory s.I (op / 256 % 16 + 1) 0 s.V
      (by have := h5565 (Or.inr c9); omega)
    simp [c9, hv] at h
  simp [c1, c2, c3, c4, c5, c6, c7, c8, c9] at h

/-- C14 (amended): a step that starts with PC <= 4094 and with the addresses of
its instruction in range (the sprite rows of DXYN, the three bytes of FX33, the
bytes I .. I+X of FX55 and FX65) makes every memory access inside [0,4096): it
does not end in a memory fault.  The code has no bounds check of its own, so
the condition is on the program. -/
theorem c14_accesses_in_range (rnd : Nat) (s : Chip8) (op : Nat)
    (hpc : s.PC ≤ 4094) (hop : fetch s = .ok op) (haddr : addresses_in_range s op) :
    ∀ a, emulate_cycle rnd s ≠ .error (.memory_oob a) := by
  intro a h
  have hb : op < 65536 ∧ s.PC ≤ 4094 := ⟨(fetch_ok_bounds hop).2, hpc⟩
  have hb := hb.1
  obtain ⟨hD, h33, h5565⟩ := haddr
  rw [emulate_cycle_of_fetch rnd hop] at h
  simp only [execute, land_F000] at h
  have hhi : op / 4096 < 16 := by omega
  interval_cases hq : op / 4096
  · simp only [Nat.reduceMod, Nat.reduceMul, if_true] at h
    exact exec_0_no_memory_fault op s a h
  · simp at h
  · simp only [Nat.reduceMod, Nat.reduceMul, Nat.reduceEqDiff, if_false, if_true] at h
    split_ifs at h
    simp at h
  · simp at h
  · simp at h
  · simp at h
  · simp at h
  · simp at h
  · simp only [Nat.reduceMod, Nat.reduceMul, Nat.reduceEqDiff, if_false, if_true] at h
    simp [exec_8] at h
  · simp at h
  · simp at h
  · simp at h
  · simp at h
  · simp only [Nat.reduceMod, Nat.reduceMul, Nat.reduceEqDiff, if_false, if_true] at h
    exact exec_D_no_memory_fault op s a (hD rfl) h
  · simp only [Nat.reduceMod, Nat.reduceMul, Nat.reduceEqDiff, if_false, if_true] at h
    exact exec_E_no_memory_fault op s a h
  · simp only [Nat.reduceMod, Nat.reduceMul, Nat.reduceEqDiff, if_false, if_true] at h
    exact exec_F_no_memory_fault op s a (h33 rfl) (h5565 rfl) h

/-- C14 (amended) at a concrete input: F255 with I = 0x300 starts with PC = 0x200
and does not end in a fault at address 4096. -/
theorem c14_accesses_in_range_witness :
    ({ boot [0xF2, 0x55] with I := 0x300 } : Chip8).PC ≤ 4094 ∧
    emulate_cycle 0 { boot [0xF2, 0x55] with I := 0x300 } ≠ .error (.memory_oob 4096) :=
  ⟨by decide,
   c14_accesses_in_range 0 { boot [0xF2, 0x55] with I := 0x300 } 0xF255
    (by decide) (by decide) (by decide) 4096⟩

/-! ## What a step leaves alone (for C15, C16, C19) -/

theorem draw_pixel_binary (X Y yline xline : Nat) (st : (Nat → Nat) × (Nat → Nat))
    (hg : ∀ p, p < 2048 → st.2 p = 0 ∨ st.2 p = 1) :
    ∀ p, p < 2048 → (draw_pixel X Y yline xline st).2 p = 0 ∨
      (draw_pixel X Y yline xline st).2 p = 1 := by
  intro p hp
  rw [draw_pixel_eq_hit, hit_snd]
  by_cases hpi : p = pixel_index (st.1 X) (st.1 Y) yline xline
  · rw [if_pos hpi]
    rcases hg _ (pixel_index_lt (st.1 X) (st.1 Y) yline xline) with h | h
    · right; rw [h]; rfl
    · left; rw [h]; rfl
  · rw [if_neg hpi]
    exact hg p hp

theorem draw_row_binary (X Y yline px : Nat) :
    ∀ (n xline : Nat) (st : (Nat → Nat) × (Nat → Nat)),
      (∀ p, p < 2048 → st.2 p = 0 ∨ st.2 p = 1) →
      ∀ p, p < 2048 → (draw_row X Y yline px xline n st).2 p = 0 ∨
        (draw_row X Y yline px xline n st).2 p = 1 := by
  intro n
  induction n with
  | zero => intro xline st hg; exact hg
  | succ n ih =>
    intro xline st hg
    simp only [draw_row]
    apply ih
    by_cases hb : px &&& (0x80 >>> xline) ≠ 0
    · rw [if_pos hb]
      exact draw_pixel_binary X Y yline xline st hg
    · rw [if_neg hb]
      exact hg

theorem draw_rows_binary (memory : Nat → Nat) (I X Y : Nat) :
    ∀ (n yline : Nat) (st st1 : (Nat → Nat) × (Nat → Nat)),
      draw_rows memory I X Y yline n st = .ok st1 →
      (∀ p, p < 2048 → st.2 p = 0 ∨ st.2 p = 1) →
      ∀ p, p < 2048 → st1.2 p = 0 ∨ st1.2 p = 1 := by
  intro n
  induction n with
  | zero =>
    intro yline st st1 h hg
    simp only [draw_rows] at h
    cases h
    exact hg
  | succ n ih =>
    intro yline st st1 h hg
    simp only [draw_rows] at h
    split_ifs at h
    exact ih (yline + 1) _ st1 h (draw_row_binary X Y yline _ 8 0 st hg)

theorem frame_ok_of_eq (s t : Chip8) (h1 : t.delay_timer = s.delay_timer)
    (h2 : t.sound_timer = s.sound_timer) (h3 : t.gfx = s.gfx) : frame_ok s t :=
  ⟨h1, h2, Or.inl h3⟩

theorem exec_0_frame (op : Nat) (s t : Chip8) (h : exec_0 op s = .ok t) : frame_ok s t := by
  simp only [exec_0] at h
  split_ifs at h
  · cases h
    refine ⟨rfl, rfl, Or.inr ⟨rfl, ?_⟩⟩
    intro _ p hp
    left
    show (if p < SCREEN_WIDTH * SCREEN_HEIGHT then 0 else s.gfx p) = 0
    rw [if_pos hp]
  · cases h; exact frame_ok_of_eq _ _ rfl rfl rfl
  · cases h; exact frame_ok_of_eq _ _ rfl rfl rfl
  · cases h; exact frame_ok_of_eq _ _ rfl rfl rfl

theorem exec_8_frame (op : Nat) (s t : Chip8) (h : exec_8 op s = .ok t) : frame_ok s t := by
  simp only [exec_8] at h
  cases h
  exact frame_ok_of_eq _ _ rfl rfl rfl

theorem exec_D_frame (op : Nat) (s t : Chip8) (h : exec_D op s = .ok t) : frame_ok s t := by
  simp only [exec_D] at h
  cases hd : draw_rows s.memory s.I ((op &&& 0x0F00) >>> 8) ((op &&& 0x00F0) >>> 4)
      0 (op &&& 0x000F) (upd s.V 0xF 0, s.gfx) with
  | error e => rw [hd] at h; cases h
  | ok st =>
    rw [hd] at h
    cases h
    refine ⟨rfl, rfl, Or.inr ⟨rfl, ?_⟩⟩
    intro hg
    exact draw_rows_binary _ _ _ _ _ _ _ st hd hg

theorem exec_E_frame (op : Nat) (s t : Chip8) (h : exec_E op s = .ok t) : frame_ok s t := by
  simp only [exec_E] at h
  split_ifs at h <;> cases h <;> exact frame_ok_of_eq _ _ rfl rfl rfl


theorem exec_F_frame (op : Nat) (s t : Chip8) (h : exec_F op s = .ok t) :
    t.delay_timer = (if op % 256 = 0x15 then s.V (op / 256 % 16) else s.delay_timer) ∧
    t.sound_timer = (if op % 256 = 0x18 then s.V (op / 256 % 16) else s.sound_timer) ∧
    t.gfx = s.gfx := by
  simp only [exec_F, land_00FF, land_0F00_shr] at h
  by_cases c1 : op % 256 = 0x07
  · simp only [c1, if_true] at h
    cases h
    simp [pc_add2, c1]
  by_cases c2 : op % 256 = 0x0A
  · simp only [c2] at h
    cases hk : key_scan s.keys 0 16 with
    | none => simp [hk] at h; cases h; simp [c2]
    | some k => simp [hk] at h; cases h; simp [pc_add2, c2]
  by_cases c3 : op % 256 = 0x15
  · simp only [c3] at h
    simp at h
    cases h
    simp [pc_add2, c3]
  by_cases c4 : op % 256 = 0x18
  · simp only [c4] at h
    simp at h
    cases h
    simp [pc_add2, c4]
  by_cases c5 : op % 256 = 0x1E
  · simp only [c5] at h
    simp at h
    cases h
    simp [pc_add2, c5]
  by_cases c6 : op % 256 = 0x29
  · simp only [c6] at h
    simp at h
    cases h
    simp [pc_add2, c6]
  by_cases c7 : op % 256 = 0x33
  · simp only [c7] at h
    simp at h
    split_ifs at h
    cases h
    simp [pc_add2, c7]
  by_cases c8 : op % 256 = 0x55
  · simp only [c8] at h
    simp at h
    cases hm : store_regs s.V s.I 0 (op / 256 % 16 + 1) s.memory with
    | error e => simp [hm] at h
    | ok m => simp [hm] at h; cases h; simp [pc_add2, c8]
  by_cases c9 : op % 256 = 0x65
  · simp only [c9] at h
    simp at h
    cases hv : load_regs s.memory s.I 0 (op / 256 % 16 + 1) s.V with
    | error e => simp [hv] at h
    | ok v => simp [hv] at h; cases h; simp [pc_add2, c9]
  simp [c1, c2, c3, c4, c5, c6, c7, c8, c9] at h
  cases h
  simp [pc_add2, c3, c4]

/-- What one instruction leaves alone: both timers except for FX15 and FX18,
and the display grid unless the draw flag is set. -/
theorem execute_frame (rnd op : Nat) (s t : Chip8) (hb : op < 65536)
    (h : execute rnd op s = .ok t) :
    t.delay_timer =
      (if op / 4096 = 0xF ∧ op % 256 = 0x15 then s.V (op / 256 % 16) else s.delay_timer) ∧
    t.sound_timer =
      (if op / 4096 = 0xF ∧ op % 256 = 0x18 then s.V (op / 256 % 16) else s.sound_timer) ∧
    (t.gfx = s.gfx ∨ (t.draw_flag = 1 ∧ (gfx_binary s → gfx_binary t))) := by
  simp only [execute, land_F000, land_0F00_shr, land_00F0_shr, land_00FF, land_0FFF] at h
  have hhi : op / 4096 < 16 := by omega
  have key : op / 4096 ≠ 0xF → frame_ok s t →
      t.delay_timer =
        (if op / 4096 = 0xF ∧ op % 256 = 0x15 then s.V (op / 256 % 16) else s.delay_timer) ∧
      t.sound_timer =
        (if op / 4096 = 0xF ∧ op % 256 = 0x18 then s.V (op / 256 % 16) else s.sound_timer) ∧
      (t.gfx = s.gfx ∨ (t.draw_flag = 1 ∧ (gfx_binary s → gfx_binary t))) := by
    intro hne hf
    rw [if_neg (fun c => hne c.1), if_neg (fun c => hne c.1)]
    exact hf
  interval_cases hq : op / 4096
  · simp only [Nat.reduceMod, Nat.reduceMul, if_true] at h
    exact key (by decide) (exec_0_frame op s t h)
  · simp at h; cases h; exact key (by decide) (frame_ok_of_eq _ _ rfl rfl rfl)
  · simp only [Nat.reduceMod, Nat.reduceMul, Nat.reduceEqDiff, if_false, if_true] at h
    split_ifs at h
    cases h
    exact key (by decide) (frame_ok_of_eq _ _ rfl rfl rfl)
  · simp at h; cases h; exact key (by decide) (frame_ok_of_eq _ _ (by split_ifs <;> rfl)
      (by split_ifs <;> rfl) (by split_ifs <;> rfl))
  · simp at h; cases h; exact key (by decide) (frame_ok_of_eq _ _ (by split_ifs <;> rfl)
      (by split_ifs <;> rfl) (by split_ifs <;> rfl))
  · simp at h; cases h; exact key (by decide) (frame_ok_of_eq _ _ (by split_ifs <;> rfl)
      (by split_ifs <;> rfl) (by split_ifs <;> rfl))
  · simp at h; cases h; exact key (by decide) (frame_ok_of_eq _ _ rfl rfl rfl)
  · simp at h; cases h; exact key (by decide) (frame_ok_of_eq _ _ rfl rfl rfl)
  · simp only [Nat.reduceMod, Nat.reduceMul, Nat.reduceEqDiff, if_false, if_true] at h
    exact key (by decide) (exec_8_frame op s t h)
  · simp at h; cases h; exact key (by decide) (frame_ok_of_eq _ _ (by split_ifs <;> rfl)
      (by split_ifs <;> rfl) (by split_ifs <;> rfl))
  · simp at h; cases h; exact key (by decide) (frame_ok_of_eq _ _ rfl rfl rfl)
  · simp at h; cases h; exact key (by decide) (frame_ok_of_eq _ _ rfl rfl rfl)
  · simp at h; cases h; exact key (by decide) (frame_ok_of_eq _ _ rfl rfl rfl)
  · simp only [Nat.reduceMod, Nat.reduceMul, Nat.reduceEqDiff, if_false, if_true] at h
    exact key (by decide) (exec_D_frame op s t h)
  · simp only [Nat.reduceMod, Nat.reduceMul, Nat.reduceEqDiff, if_false, if_true] at h
    exact key (by decide) (exec_E_frame op s t h)
  · simp only [Nat.reduceMod, Nat.reduceMul, Nat.reduceEqDiff, if_false, if_true] at h
    obtain ⟨h1, h2, h3⟩ := exec_F_frame op s t h
    refine ⟨?_, ?_, Or.inl h3⟩
    · rw [h1]; simp
    · rw [h2]; simp


theorem exec_0_returns (op : Nat) (s : Chip8) (h : op % 256 = 0xEE → s.SP ≤ 16) :
    ∃ t, exec_0 op s = .ok t := by
  simp only [exec_0, land_00FF]
  by_cases c1 : op % 256 = 0xE0
  · exact ⟨_, by rw [if_pos c1]⟩
  · rw [if_neg c1]
    by_cases c2 : op % 256 = 0xEE
    · rw [if_pos c2]
      by_cases c3 : s.SP > 0
      · have c4 : s.SP - 1 < STACK_SIZE := by have := h c2; simp only [STACK_SIZE]; omega
        exact ⟨_, by rw [if_pos c3, if_pos c4]⟩
      · exact ⟨_, by rw [if_neg c3]⟩
    · exact ⟨_, by rw [if_neg c2]⟩

theorem exec_E_returns (op : Nat) (s : Chip8)
    (h : op % 256 = 0x9E ∨ op % 256 = 0xA1 → s.V (op / 256 % 16) < 16) :
    ∃ t, exec_E op s = .ok t := by
  simp only [exec_E, land_00FF, land_0F00_shr]
  by_cases c1 : op % 256 = 0x9E
  · exact ⟨_, by rw [if_pos c1, if_pos (h (Or.inl c1))]⟩
  · rw [if_neg c1]
    by_cases c2 : op % 256 = 0xA1
    · exact ⟨_, by rw [if_pos c2, if_pos (h (Or.inr c2))]⟩
    · exact ⟨_, by rw [if_neg c2]⟩

theorem exec_D_returns (op : Nat) (s : Chip8) (h : s.I + op % 16 ≤ 4096) :
    ∃ t, exec_D op s = .ok t := by
  obtain ⟨st, hst⟩ := draw_rows_ok s.memory s.I ((op &&& 0x0F00) >>> 8)
    ((op &&& 0x00F0) >>> 4) (op &&& 0x000F) 0 (upd s.V 0xF 0, s.gfx)
    (by rw [land_000F]; omega)
  simp only [exec_D, hst]
  exact ⟨_, rfl⟩

theorem exec_F_returns (op : Nat) (s : Chip8)
    (h33 : op % 256 = 0x33 → s.I + 2 < 4096)
    (h5565 : op % 256 = 0x55 ∨ op % 256 = 0x65 → s.I + op / 256 % 16 < 4096) :
    ∃ t, exec_F op s = .ok t := by
  cases h : exec_F op s with
  | ok t => exact ⟨t, rfl⟩
  | error e =>
    exfalso
    simp only [exec_F, land_00FF, land_0F00_shr] at h
    by_cases c1 : op % 256 = 0x07
    · simp [c1] at h
    by_cases c2 : op % 256 = 0x0A
    · simp only [c2] at h
      cases hk : key_scan s.keys 0 16 <;> simp [hk] at h
    by_cases c3 : op % 256 = 0x15
    · simp [c3] at h
    by_cases c4 : op % 256 = 0x18
    · simp [c4] at h
    by_cases c5 : op % 256 = 0x1E
    · simp [c5] at h
    by_cases c6 : op % 256 = 0x29
    · simp [c6] at h
    by_cases c7 : op % 256 = 0x33
    · have hI := h33 c7
      have i0 : ¬ (MEMORY_SIZE ≤ s.I) := by simp only [MEMORY_SIZE]; omega
      have i1 : ¬ (MEMORY_SIZE ≤ s.I + 1) := by simp only [MEMORY_SIZE]; omega
      have i2 : ¬ (MEMORY_SIZE ≤ s.I + 2) := by simp only [MEMORY_SIZE]; omega
      simp [c7, i0, i1, i2] at h
    by_cases c8 : op % 256 = 0x55
    · obtain ⟨m, hm⟩ := store_regs_ok s.V s.I (op / 256 % 16 + 1) 0 s.memory
        (by have := h5565 (Or.inl c8); omega)
      simp [c8, hm] at h
    by_cases c9 : op % 256 = 0x65
    · obtain ⟨v, hv⟩ := load_regs_ok s.memory s.I (op / 256 % 16 + 1) 0 s.V
        (by have := h5565 (Or.inr c9); omega)
      simp [c9, hv] at h
    simp [c1, c2, c3, c4, c5, c6, c7, c8, c9] at h

/-- A step whose opcode fetch, memory addresses, stack index and key index are
all in range returns a state. -/
theorem emulate_cycle_returns (rnd : Nat) (s : Chip8) (op : Nat)
    (hop : fetch s = .ok op) (haddr : addresses_in_range s op)
    (hsk : stack_keys_in_range s op) :
    ∃ t, emulate_cycle rnd s = .ok t := by
  have hb := (fetch_ok_bounds hop).2
  obtain ⟨hD, h33, h5565⟩ := haddr
  obtain ⟨hcall, hret, hkey⟩ := hsk
  rw [emulate_cycle_of_fetch rnd hop]
  simp only [execute, land_F000]
  have hhi : op / 4096 < 16 := by omega
  interval_cases hq : op / 4096
  · simp only [Nat.reduceMod, Nat.reduceMul, if_true]
    exact exec_0_returns op s (hret rfl)
  · simp
  · have hsp : s.SP < STACK_SIZE := hcall rfl
    simp [hsp]
  · simp
  · simp
  · simp
  · simp
  · simp
  · simp only [Nat.reduceMod, Nat.reduceMul, Nat.reduceEqDiff, if_false, if_true]
    simp only [exec_8]
    exact ⟨_, rfl⟩
  · simp
  · simp
  · simp
  · simp
  · simp only [Nat.reduceMod, Nat.reduceMul, Nat.reduceEqDiff, if_false, if_true]
    exact exec_D_returns op s (hD rfl)
  · simp only [Nat.reduceMod, Nat.reduceMul, Nat.reduceEqDiff, if_false, if_true]
    exact exec_E_returns op s (hkey rfl)
  · simp only [Nat.reduceMod, Nat.reduceMul, Nat.reduceEqDiff, if_false, if_true]
    exact exec_F_returns op s (h33 rfl) (h5565 rfl)

/-! ## C15: a step never decrements a timer -/

/-- C15, as stated for every state, fails: the program 6009 F015 AFFF 6036 F01E
6005 F055 reaches, after six steps, a state with delay_timer = 9, I = 4149 and
the opcode F055 at PC; its step stores V0 at `memory[4149]`, outside the 4096
bytes of memory, so the step yields no state in which the delay timer is as
before (the store is unchecked; in the struct the bytes after `memory`, `V`,
`I`, `PC` and `stack` are `SP` and the timers). -/
theorem c15_counterexample :
    pc_of (run_cycles (List.replicate 6 0)
      (boot [0x60, 0x09, 0xF0, 0x15, 0xAF, 0xFF, 0x60, 0x36, 0xF0, 0x1E, 0x60, 0x05, 0xF0, 0x55])) = some 0x20C ∧
    (state_of (run_cycles (List.replicate 6 0)
      (boot [0x60, 0x09, 0xF0, 0x15, 0xAF, 0xFF, 0x60, 0x36, 0xF0, 0x1E, 0x60, 0x05, 0xF0, 0x55]))).delay_timer = 9 ∧
    (state_of (run_cycles (List.replicate 6 0)
      (boot [0x60, 0x09, 0xF0, 0x15, 0xAF, 0xFF, 0x60, 0x36, 0xF0, 0x1E, 0x60, 0x05, 0xF0, 0x55]))).I = 4149 ∧
    fetch (state_of (run_cycles (List.replicate 6 0)
      (boot [0x60, 0x09, 0xF0, 0x15, 0xAF, 0xFF, 0x60, 0x36, 0xF0, 0x1E, 0x60, 0x05, 0xF0, 0x55]))) = .ok 0xF055 ∧
    fault_of (emulate_cycle 0 (state_of (run_cycles (List.replicate 6 0)
      (boot [0x60, 0x09, 0xF0, 0x15, 0xAF, 0xFF, 0x60, 0x36, 0xF0, 0x1E, 0x60, 0x05, 0xF0, 0x55])))) = some (Fault.memory_oob 4149) ∧
    ¬ ∃ t, emulate_cycle 0 (state_of (run_cycles (List.replicate 6 0)
      (boot [0x60, 0x09, 0xF0, 0x15, 0xAF, 0xFF, 0x60, 0x36, 0xF0, 0x1E, 0x60, 0x05, 0xF0, 0x55]))) = .ok t ∧
      t.delay_timer = (state_of (run_cycles (List.replicate 6 0)
      (boot [0x60, 0x09, 0xF0, 0x15, 0xAF, 0xFF, 0x60, 0x36, 0xF0, 0x1E, 0x60, 0x05, 0xF0, 0x55]))).delay_timer := by
  refine ⟨by decide, by decide, by decide, by decide, by decide, ?_⟩
  rintro ⟨t, ht, -⟩
  have hf : fault_of (emulate_cycle 0 (state_of (run_cycles (List.replicate 6 0)
      (boot [0x60, 0x09, 0xF0, 0x15, 0xAF, 0xFF, 0x60, 0x36, 0xF0, 0x1E, 0x60, 0x05, 0xF0, 0x55])))) = some (Fault.memory_oob 4149) := by decide
  rw [ht] at hf
  cases hf

/-- The program 6009 F015 2204: after 18 steps delay_timer = 9 and SP = 16 with
the call 2204 at PC, and the step of the call stores at `stack[16]`, outside the
array (the unguarded push of 2NNN). -/
theorem call_on_full_stack_faults :
    (state_of (run_cycles (List.replicate 18 0) (boot [0x60, 0x09, 0xF0, 0x15, 0x22, 0x04]))).delay_timer = 9 ∧
    (state_of (run_cycles (List.replicate 18 0) (boot [0x60, 0x09, 0xF0, 0x15, 0x22, 0x04]))).SP = 16 ∧
    fetch (state_of (run_cycles (List.replicate 18 0) (boot [0x60, 0x09, 0xF0, 0x15, 0x22, 0x04]))) = .ok 0x2204 ∧
    fault_of (run_cycles (List.replicate 19 0) (boot [0x60, 0x09, 0xF0, 0x15, 0x22, 0x04])) = some (Fault.stack_oob 16) := by
  decide

/-- C15 (amended): for every state and opcode whose step makes all its array
accesses in range (the opcode fetch, the memory addresses of the instruction,
the stack index of 2NNN and 00EE, the key index of EX9E and EXA1), the step
returns a state in which the delay timer is as before unless the opcode is FX15
(then it is V[X]) and the sound timer is as before unless the opcode is FX18
(then it is V[X]). -/
theorem c15_step_keeps_timers (rnd : Nat) (s : Chip8) (op : Nat)
    (hop : fetch s = .ok op) (haddr : addresses_in_range s op)
    (hsk : stack_keys_in_range s op) :
    ∃ t, emulate_cycle rnd s = .ok t ∧
      t.delay_timer =
        (if op / 4096 = 0xF ∧ op % 256 = 0x15 then s.V (op / 256 % 16) else s.delay_timer) ∧
      t.sound_timer =
        (if op / 4096 = 0xF ∧ op % 256 = 0x18 then s.V (op / 256 % 16) else s.sound_timer) := by
  obtain ⟨t, ht⟩ := emulate_cycle_returns rnd s op hop haddr hsk
  have he := ht
  rw [emulate_cycle_of_fetch rnd hop] at he
  obtain ⟨h1, h2, -⟩ := execute_frame rnd op s t (fetch_ok_bounds hop).2 he
  exact ⟨t, ht, h1, h2⟩

/-- C15 (amended) at a concrete input: 7005 (an addition) with both timers at 9
leaves them at 9. -/
theorem c15_step_keeps_timers_witness :
    ∃ t, emulate_cycle 0 { boot [0x70, 0x05] with delay_timer := 9, sound_timer := 9 }
        = .ok t ∧ t.delay_timer = 9 ∧ t.sound_timer = 9 :=
  c15_step_keeps_timers 0 { boot [0x70, 0x05] with delay_timer := 9, sound_timer := 9 }
    0x7005 (by decide) (by decide) (by decide)

/-! ## C16: a changed grid sets the draw flag -/

/-- C16, as stated for every state, fails: the program AFFF 6038 F01E 6005 F055
reaches, after four steps, a state with I = 4151, draw_flag = 0 and the opcode
F055 at PC; its step stores V0 at `memory[4151]`, outside the 4096 bytes of
memory, so the step yields no state that meets the claim (the store is
unchecked and no instruction but the clear and DXYN sets `draw_flag`). -/
theorem c16_counterexample :
    pc_of (run_cycles (List.replicate 4 0)
      (boot [0xAF, 0xFF, 0x60, 0x38, 0xF0, 0x1E, 0x60, 0x05, 0xF0, 0x55])) = some 0x208 ∧
    (state_of (run_cycles (List.replicate 4 0)
      (boot [0xAF, 0xFF, 0x60, 0x38, 0xF0, 0x1E, 0x60, 0x05, 0xF0, 0x55]))).I = 4151 ∧
    (state_of (run_cycles (List.replicate 4 0)
      (boot [0xAF, 0xFF, 0x60, 0x38, 0xF0, 0x1E, 0x60, 0x05, 0xF0, 0x55]))).draw_flag = 0 ∧
    fetch (state_of (run_cycles (List.replicate 4 0)
      (boot [0xAF, 0xFF, 0x60, 0x38, 0xF0, 0x1E, 0x60, 0x05, 0xF0, 0x55]))) = .ok 0xF055 ∧
    fault_of (emulate_cycle 0 (state_of (run_cycles (List.replicate 4 0)
      (boot [0xAF, 0xFF, 0x60, 0x38, 0xF0, 0x1E, 0x60, 0x05, 0xF0, 0x55])))) = some (Fault.memory_oob 4151) ∧
    ¬ ∃ t, emulate_cycle 0 (state_of (run_cycles (List.replicate 4 0)
      (boot [0xAF, 0xFF, 0x60, 0x38, 0xF0, 0x1E, 0x60, 0x05, 0xF0, 0x55]))) = .ok t ∧
      ((∃ p, p < SCREEN_WIDTH * SCREEN_HEIGHT ∧ t.gfx p ≠ (state_of (run_cycles (List.replicate 4 0)
      (boot [0xAF, 0xFF, 0x60, 0x38, 0xF0, 0x1E, 0x60, 0x05, 0xF0, 0x55]))).gfx p) → t.draw_flag = 1) := by
  refine ⟨by decide, by decide, by decide, by decide, by decide, ?_⟩
  rintro ⟨t, ht, -⟩
  have hf : fault_of (emulate_cycle 0 (state_of (run_cycles (List.replicate 4 0)
      (boot [0xAF, 0xFF, 0x60, 0x38, 0xF0, 0x1E, 0x60, 0x05, 0xF0, 0x55])))) = some (Fault.memory_oob 4151) := by decide
  rw [ht] at hf
  cases hf

/-- C16 (amended): for every state and opcode whose step makes all its array
accesses in range (the opcode fetch, the memory addresses of the instruction,
the stack index of 2NNN and 00EE, the key index of EX9E and EXA1), the step
returns a state, and if its display grid differs from the grid before in at
least one pixel then `draw_flag` is 1 in it. -/
theorem c16_grid_change_sets_draw_flag (rnd : Nat) (s : Chip8) (op : Nat)
    (hop : fetch s = .ok op) (haddr : addresses_in_range s op)
    (hsk : stack_keys_in_range s op) :
    ∃ t, emulate_cycle rnd s = .ok t ∧
      ((∃ p, p < SCREEN_WIDTH * SCREEN_HEIGHT ∧ t.gfx p ≠ s.gfx p) → t.draw_flag = 1) := by
  obtain ⟨t, ht⟩ := emulate_cycle_returns rnd s op hop haddr hsk
  have he := ht
  rw [emulate_cycle_of_fetch rnd hop] at he
  obtain ⟨-, -, h3⟩ := execute_frame rnd op s t (fetch_ok_bounds hop).2 he
  refine ⟨t, ht, ?_⟩
  rintro ⟨p, -, hp⟩
  rcases h3 with h3 | h3
  · exact absurd (congrFun h3 p) hp
  · exact h3.1

/-- C16 (amended) at a concrete input: 00E0 on a grid with four lit pixels. -/
theorem c16_grid_change_sets_draw_flag_witness :
    ∃ t, emulate_cycle 0 (boot_with_gfx [0x00, 0xE0] (fun i => if i < 4 then 1 else 0))
        = .ok t ∧
      ((∃ p, p < SCREEN_WIDTH * SCREEN_HEIGHT ∧
          t.gfx p ≠ (boot_with_gfx [0x00, 0xE0] (fun i => if i < 4 then 1 else 0)).gfx p) →
        t.draw_flag = 1) :=
  c16_grid_change_sets_draw_flag 0
    (boot_with_gfx [0x00, 0xE0] (fun i => if i < 4 then 1 else 0)) 0x00E0
    (by decide) (by decide) (by decide)

/-! ## C17: return on an empty stack -/

/-- C17: with SP = 0 and PC <= 4094, the step of 00EE sets PC to PC+2 and
changes nothing else (SP stays 0). -/
theorem c17_return_on_empty_stack (rnd : Nat) (s : Chip8)
    (hsp : s.SP = 0) (hpc : s.PC ≤ 4094) (hop : fetch s = .ok 0x00EE) :
    emulate_cycle rnd s = .ok { s with PC := s.PC + 2 } := by
  have hsp2 : ¬ (s.SP > 0) := by omega
  rw [emulate_cycle_of_fetch rnd hop, ← pc_add2_eq (by omega)]
  simp [execute, land_F000, exec_0, land_00FF, hsp]

/-- C17 at a concrete input: 00EE as the first instruction. -/
theorem c17_return_on_empty_stack_witness :
    emulate_cycle 0 (boot [0x00, 0xEE]) = .ok { boot [0x00, 0xEE] with PC := 0x200 + 2 } :=
  c17_return_on_empty_stack 0 (boot [0x00, 0xEE]) (by decide) (by decide) (by decide)

/-! ## C19: the cells of the grid are 0 or 1 -/

theorem land_two_pow_ne_zero (px k : Nat) : px &&& 2 ^ k ≠ 0 ↔ px.testBit k = true := by
  rw [Nat.and_comm, Nat.two_pow_and]
  cases h : px.testBit k
  · simp
  · simp

theorem sprite_bit_iff (px c : Nat) (hc : c < 8) :
    sprite_bit px c ↔ px.testBit (7 - c) = true := by
  unfold sprite_bit
  have h : (0x80 : Nat) >>> c = 2 ^ (7 - c) := by
    interval_cases c <;> rfl
  rw [h]
  exact land_two_pow_ne_zero px (7 - c)

theorem mem_sprite_hits_testBit (memory : Nat → Nat) (I vx vy N p : Nat) :
    p ∈ sprite_hits memory I vx vy 0 N ↔
      ∃ r c, r < N ∧ c < 8 ∧ (memory (I + r)).testBit (7 - c) = true ∧
        p = pixel_index vx vy r c := by
  rw [mem_sprite_hits]
  constructor
  · rintro ⟨r, c, -, hr, hc, hb, hp⟩
    exact ⟨r, c, by omega, hc, (sprite_bit_iff _ c hc).mp hb, hp⟩
  · rintro ⟨r, c, hr, hc, hb, hp⟩
    exact ⟨r, c, Nat.zero_le _, by omega, hc, (sprite_bit_iff _ c hc).mpr hb, hp⟩

/-- C18: for N in 0..15, X and Y other than 0xF, the sprite rows inside memory
and a grid of cells 0 or 1: after DXYN, VF is 1 when some set sprite bit (r, c)
(bit c of memory[I+r] counted from the most significant bit) has its target
pixel ((V[X]+c) mod 64, (V[Y]+r) mod 32) equal to 1 before, and 0 when there is
none; every pixel that is the target of a set sprite bit is toggled, and every
other pixel is unchanged. -/
theorem c18_draw_sprite (rnd : Nat) (s : Chip8) (X Y N : Nat)
    (hX : X < 16) (hY : Y < 16) (hN : N < 16) (hXF : X ≠ 0xF) (hYF : Y ≠ 0xF)
    (hI : s.I + N ≤ 4096) (hg : gfx_binary s)
    (hop : fetch s = .ok (0xD000 + 0x100 * X + 0x10 * Y + N)) :
    ∃ t, emulate_cycle rnd s = .ok t ∧
      ((∃ r c, r < N ∧ c < 8 ∧ (s.memory (s.I + r)).testBit (7 - c) = true ∧
          s.gfx (pixel_index (s.V X) (s.V Y) r c) = 1) → t.V 0xF = 1) ∧
      ((¬ ∃ r c, r < N ∧ c < 8 ∧ (s.memory (s.I + r)).testBit (7 - c) = true ∧
          s.gfx (pixel_index (s.V X) (s.V Y) r c) = 1) → t.V 0xF = 0) ∧
      (∀ p, (∃ r c, r < N ∧ c < 8 ∧ (s.memory (s.I + r)).testBit (7 - c) = true ∧
          p = pixel_index (s.V X) (s.V Y) r c) → t.gfx p = 1 - s.gfx p) ∧
      (∀ p, (¬ ∃ r c, r < N ∧ c < 8 ∧ (s.memory (s.I + r)).testBit (7 - c) = true ∧
          p = pixel_index (s.V X) (s.V Y) r c) → t.gfx p = s.gfx p) := by
  have hnd := nodup_sprite_hits s.memory s.I (s.V X) (s.V Y) N 0 (by omega)
  rw [emulate_cycle_of_fetch rnd hop, execute_DXYN rnd s X Y N hX hY hN hXF hYF hI]
  refine ⟨_, rfl, ?_, ?_, ?_, ?_⟩
  · rintro ⟨r, c, hr, hc, hb, h1⟩
    show (apply_hits _ _).1 0xF = 1
    rw [apply_hits_vf _ _ hnd, if_pos]
    exact ⟨_, (mem_sprite_hits_testBit _ _ _ _ _ _).mpr ⟨r, c, hr, hc, hb, rfl⟩, h1⟩
  · intro hno
    show (apply_hits _ _).1 0xF = 0
    rw [apply_hits_vf _ _ hnd, if_neg]
    · exact upd_same s.V 0xF 0
    · rintro ⟨p, hp, h1⟩
      obtain ⟨r, c, hr, hc, hb, rfl⟩ := (mem_sprite_hits_testBit _ _ _ _ _ _).mp hp
      exact hno ⟨r, c, hr, hc, hb, h1⟩
  · intro p hp
    show (apply_hits _ _).2 p = 1 - s.gfx p
    rw [apply_hits_gfx p _ _ hnd, if_pos ((mem_sprite_hits_testBit _ _ _ _ _ _).mpr hp)]
    obtain ⟨r, c, -, -, -, rfl⟩ := hp
    rcases hg _ (pixel_index_lt (s.V X) (s.V Y) r c) with h | h
    · simp only [h]; rfl
    · simp only [h]; rfl
  · intro p hp
    show (apply_hits _ _).2 p = s.gfx p
    rw [apply_hits_gfx p _ _ hnd,
      if_neg (fun hm => hp ((mem_sprite_hits_testBit _ _ _ _ _ _).mp hm))]


/-- C18 at a concrete input: the 5-row font glyph at I = 0 drawn at (0, 0) on the
clear grid. -/
theorem c18_draw_sprite_witness :
    ∃ t, emulate_cycle 0 (boot [0xD0, 0x15]) = .ok t ∧
      ((∃ r c, r < 5 ∧ c < 8 ∧ ((boot [0xD0, 0x15]).memory ((boot [0xD0, 0x15]).I + r)).testBit (7 - c) = true ∧
          (boot [0xD0, 0x15]).gfx (pixel_index ((boot [0xD0, 0x15]).V 0) ((boot [0xD0, 0x15]).V 1) r c) = 1) → t.V 0xF = 1) ∧
      ((¬ ∃ r c, r < 5 ∧ c < 8 ∧ ((boot [0xD0, 0x15]).memory ((boot [0xD0, 0x15]).I + r)).testBit (7 - c) = true ∧
          (boot [0xD0, 0x15]).gfx (pixel_index ((boot [0xD0, 0x15]).V 0) ((boot [0xD0, 0x15]).V 1) r c) = 1) → t.V 0xF = 0) ∧
      (∀ p, (∃ r c, r < 5 ∧ c < 8 ∧ ((boot [0xD0, 0x15]).memory ((boot [0xD0, 0x15]).I + r)).testBit (7 - c) = true ∧
          p = pixel_index ((boot [0xD0, 0x15]).V 0) ((boot [0xD0, 0x15]).V 1) r c) → t.gfx p = 1 - (boot [0xD0, 0x15]).gfx p) ∧
      (∀ p, (¬ ∃ r c, r < 5 ∧ c < 8 ∧ ((boot [0xD0, 0x15]).memory ((boot [0xD0, 0x15]).I + r)).testBit (7 - c) = true ∧
          p = pixel_index ((boot [0xD0, 0x15]).V 0) ((boot [0xD0, 0x15]).V 1) r c) → t.gfx p = (boot [0xD0, 0x15]).gfx p) :=
  c18_draw_sprite 0 (boot [0xD0, 0x15]) 0 1 5
    (by decide) (by decide) (by decide) (by decide) (by decide) (by decide)
    (fun _ _ => Or.inl rfl) (by decide)

/-! ## C20: call and return -/

/-- C20: with SP < 16, the opcode 2NNN at PC (PC <= 4094) and the opcode 00EE at
address NNN (NNN <= 4094), two steps yield PC + 2 and the SP of before; the
only other change is the stack entry at index SP, which holds the old PC, so
V0..VF, I, memory, timers, display, keys and the stack entries below SP are
unchanged. -/
theorem c20_call_return (rnd1 rnd2 : Nat) (s : Chip8) (NNN : Nat)
    (hsp : s.SP < 16) (hN : NNN ≤ 4094)
    (hop1 : fetch s = .ok (0x2000 + NNN))
    (hop2 : fetch { s with PC := NNN } = .ok 0x00EE) :
    run_cycles [rnd1, rnd2] s =
      .ok { s with PC := s.PC + 2, stack := upd s.stack s.SP s.PC } ∧
    (∀ i, i < s.SP → upd s.stack s.SP s.PC i = s.stack i) := by
  have hpc := (fetch_ok_bounds hop1).1
  have e1 : (0x2000 + NNN) / 4096 % 16 = 2 := by omega
  have e2 : (0x2000 + NNN) % 4096 = NNN := by omega
  have hsp1 : (s.SP + 1) % 256 = s.SP + 1 := Nat.mod_eq_of_lt (by omega)
  have hsp2 : s.SP < STACK_SIZE := hsp
  have h1 : emulate_cycle rnd1 s =
      .ok { s with stack := upd s.stack s.SP s.PC, SP := s.SP + 1, PC := NNN } := by
    rw [emulate_cycle_of_fetch rnd1 hop1]
    simp [execute, land_F000, e1, land_0FFF, e2, hsp2, hsp1]
  have hf : fetch { s with stack := upd s.stack s.SP s.PC, SP := s.SP + 1, PC := NNN }
      = .ok 0x00EE := by
    rw [← hop2]
    rfl
  constructor
  · rw [run_cycles_two rnd1 rnd2 s _ h1, emulate_cycle_of_fetch rnd2 hf]
    have hmod : (s.PC + 2) % 65536 = s.PC + 2 := Nat.mod_eq_of_lt (by omega)
    simp [execute, land_F000, exec_0, land_00FF, hsp2, pc_add2, hmod]
  · intro i hi
    exact upd_ne _ _ _ _ (by omega)

/-- C20 at a concrete input: 2204 at 0x200 and 00EE at 0x204. -/
theorem c20_call_return_witness :
    run_cycles [0, 0] (boot [0x22, 0x04, 0x00, 0x00, 0x00, 0xEE]) =
      .ok { boot [0x22, 0x04, 0x00, 0x00, 0x00, 0xEE] with
            PC := 0x200 + 2, stack := upd (fun _ => 0) 0 0x200 } :=
  (c20_call_return 0 0 (boot [0x22, 0x04, 0x00, 0x00, 0x00, 0xEE]) 0x204
    (by decide) (by decide) (by decide) (by decide)).1

end Chip8Emu
